import Mathlib

/-! Memcached management service: a shallow embedding of `services/memcached.go`.

The Go type `MemcachedService` and its methods are embedded as pure functions
with explicit state passing.

* A Go `string` is a `GoString`, the list of its Unicode code points; `len`
  is the number of bytes of the UTF-8 encoding (`byteLen`).
* A Go `error` is observed through its message: `Option String`, `none`
  being `nil`.
* The cache server, the `gomemcache` client library and the TCP transport are
  external to the repository.  They are a parameter, `Backend σ`, giving the
  answer of the outside world to every call, over an arbitrary state `σ`.
  Every call that is made is appended to a trace, so that "no server call is
  made" is a statement about the trace.
-/

namespace Memcached

/-! ## Go strings and the `strings` functions used by the service -/

/-- A Go string, as the list of its code points. -/
abbrev GoString := List Char

/-- Go `len(s)`: the length in bytes of the UTF-8 encoding. -/
def byteLen (s : GoString) : Nat := (s.map Char.utf8Size).sum

/-- Go `unicode.IsSpace`: the code points with the `White_Space` property. -/
def isSpace (c : Char) : Bool :=
  let n := c.toNat
  n == 0x09 || n == 0x0A || n == 0x0B || n == 0x0C || n == 0x0D || n == 0x20
    || n == 0x85 || n == 0xA0 || n == 0x1680 || (0x2000 ≤ n && n ≤ 0x200A)
    || n == 0x2028 || n == 0x2029 || n == 0x202F || n == 0x205F || n == 0x3000

/-- Go `strings.TrimLeftFunc(s, unicode.IsSpace)`. -/
def trimLeft (s : GoString) : GoString := s.dropWhile isSpace

/-- Go `strings.TrimRightFunc(s, unicode.IsSpace)`. -/
def trimRight (s : GoString) : GoString := (s.reverse.dropWhile isSpace).reverse

/-- Go `strings.TrimSpace`: leading and trailing white space removed. -/
def TrimSpace (s : GoString) : GoString := trimRight (trimLeft s)

/-- Go `strings.HasPrefix(s, p)`. -/
def HasPrefix (s p : GoString) : Bool := p.isPrefixOf s

/-- Go `strings.Contains(s, sub)`: `sub` occurs in `s` as a contiguous run. -/
def Contains : GoString → GoString → Bool
  | [], sub => sub.isEmpty
  | c :: s, sub => sub.isPrefixOf (c :: s) || Contains s sub

/-- Go `strings.Replace(s, old, new, 1)` for a non-empty `old`: the first
occurrence of `old` in `s` is replaced by `new`. -/
def ReplaceFirst : GoString → GoString → GoString → GoString
  | [], _, _ => []
  | c :: s, old, new =>
    if old.isPrefixOf (c :: s) then new ++ (c :: s).drop old.length
    else c :: ReplaceFirst s old new

/-- Go regexp class `\d`: an ASCII decimal digit. -/
def isDigit (c : Char) : Bool := '0'.toNat ≤ c.toNat && c.toNat ≤ '9'.toNat

/-- The value of a run of decimal digits. -/
def decimal (ds : GoString) : Nat := ds.foldl (fun n c => 10 * n + (c.toNat - '0'.toNat)) 0

/-- Go `strconv.Atoi` with a 64-bit `int`: an optional sign and a non-empty run
of decimal digits, whose value must fit; `none` is a non-nil error. -/
def Atoi (s : GoString) : Option Int :=
  let neg := s.head? = some '-'
  let ds := if s.head? = some '-' ∨ s.head? = some '+' then s.tail else s
  if ds = [] ∨ !ds.all isDigit then none
  else if neg then (if decimal ds ≤ 2 ^ 63 then some (-(decimal ds : Int)) else none)
  else (if decimal ds < 2 ^ 63 then some (decimal ds : Int) else none)

/-- Go `fmt` verb `%d` for an `int`. -/
def formatInt (i : Int) : GoString :=
  if i < 0 then '-' :: (Nat.repr i.natAbs).toList else (Nat.repr i.natAbs).toList

/-- The regexp `STAT items:(\d+):number` matched at the start of `s`: the text
of group 1.  The digits are followed by `:`, so group 1 is the whole run. -/
def matchStatAt (s : GoString) : Option GoString :=
  if "STAT items:".toList.isPrefixOf s then
    let rest := s.drop "STAT items:".toList.length
    let ds := rest.takeWhile isDigit
    if ds ≠ [] ∧ ":number".toList.isPrefixOf (rest.dropWhile isDigit) then some ds else none
  else none

/-- Go `regexp.MustCompile("STAT items:(\d+):number").FindStringSubmatch(line)`,
reduced to group 1 of the leftmost match; `none` when there is no match. -/
def findStat : GoString → Option GoString
  | [] => none
  | c :: s =>
    match matchStatAt (c :: s) with
    | some ds => some ds
    | none => findStat s

/-- Go regexp class `\s`: tab, line feed, form feed, carriage return, space. -/
def isReSpace (c : Char) : Bool :=
  c.toNat == 0x09 || c.toNat == 0x0A || c.toNat == 0x0C || c.toNat == 0x0D || c.toNat == 0x20

/-- The regexp `ITEM ([^\s]+)` matched at the start of `s`: the text of
group 1, the longest run since the repetition is greedy. -/
def matchItemAt (s : GoString) : Option GoString :=
  if "ITEM ".toList.isPrefixOf s then
    let k := (s.drop "ITEM ".toList.length).takeWhile (fun c => !isReSpace c)
    if k ≠ [] then some k else none
  else none

/-- Go `regexp.MustCompile("ITEM ([^\s]+)").FindStringSubmatch(line)`, reduced
to group 1 of the leftmost match. -/
def findItem : GoString → Option GoString
  | [] => none
  | c :: s =>
    match matchItemAt (c :: s) with
    | some k => some k
    | none => findItem s

/-- Equality of the results of a fallible call can be decided. -/
instance decEqExcept {ε α : Type} [DecidableEq ε] [DecidableEq α] : DecidableEq (Except ε α)
  | .ok a, .ok b =>
    if h : a = b then isTrue (by rw [h]) else isFalse (fun e => h (by cases e; rfl))
  | .error a, .error b =>
    if h : a = b then isTrue (by rw [h]) else isFalse (fun e => h (by cases e; rfl))
  | .ok _, .error _ => isFalse (fun e => by cases e)
  | .error _, .ok _ => isFalse (fun e => by cases e)

/-! ## The outside world -/

/-- The `memcache.Item` fields the service uses: `Key` and `Value`. -/
structure Item where
  Key : GoString
  Value : GoString
deriving DecidableEq, Repr

/-- A `*memcache.Client`: the server address it was created for and its
`Timeout` field, in seconds. -/
structure Client where
  server : GoString
  Timeout : Nat
deriving DecidableEq, Repr

/-- The calls the service makes to the client library and the network. -/
inductive Call where
  | new (server : GoString)
  | ping (server : GoString)
  | set (server : GoString) (item : Item)
  | get (server key : GoString)
  | delete (server key : GoString)
  | flushAll (server : GoString)
  | dial (addr : GoString)
  | write (addr cmd : GoString)
  | close (addr : GoString)
deriving DecidableEq, Repr

/-- The answers of the outside world, over a state `σ` of the cache server and
the network.  `write` gives the lines the server sends back on the raw
connection for a command; `rangeOrder` is the order in which Go iterates over
the keys of a map. -/
structure Backend (σ : Type) where
  ping : GoString → σ → Option String × σ
  set : GoString → Item → σ → Option String × σ
  get : GoString → GoString → σ → Except String Item × σ
  delete : GoString → GoString → σ → Option String × σ
  flushAll : GoString → σ → Option String × σ
  dial : GoString → σ → Option String × σ
  write : GoString → GoString → σ → List GoString × σ
  rangeOrder : List Int → List Int

/-- The state of the outside world together with the calls made so far. -/
structure World (σ : Type) where
  srv : σ
  trace : List Call
deriving DecidableEq, Repr

/-- A `bufio.Scanner` over the raw connection: the lines received and not yet
read, and whether `Scan` has already returned false (it then does so for ever).
A `Scan` with no line left is the end or the failure of the stream. -/
structure Scanner where
  pending : List GoString
  done : Bool
deriving DecidableEq, Repr

/-- The set of keys of a Go `map[int]bool` after `m[id] = true`. -/
def mapInsert (ids : List Int) (id : Int) : List Int :=
  if id ∈ ids then ids else ids ++ [id]

/-- The first loop of `GetAllKeys` (lines 145 to 157) over the lines the
scanner still holds: the slab identifiers recorded and the scanner left. -/
def statsLoop : List GoString → List Int → List Int × Scanner
  | [], ids => (ids, ⟨[], true⟩)
  | line :: rest, ids =>
    if line = "END".toList then (ids, ⟨rest, false⟩)
    else
      match findStat line with
      | some m =>
        match Atoi m with
        | some slabID => statsLoop rest (mapInsert ids slabID)
        | none => statsLoop rest ids
      | none => statsLoop rest ids

/-- The inner loop of `GetAllKeys` (lines 163 to 173) over the lines the
scanner still holds: the keys so far and the scanner left. -/
def dumpLoop : List GoString → List GoString → List GoString × Scanner
  | [], keys => (keys, ⟨[], true⟩)
  | line :: rest, keys =>
    if line = "END".toList then (keys, ⟨rest, false⟩)
    else
      match findItem line with
      | some k => dumpLoop rest (keys ++ [k])
      | none => dumpLoop rest keys

/-- A `for scanner.Scan()` loop entered with scanner `sc`: nothing is read once
the scanner is done. -/
def scanWith {α : Type} (loop : List GoString → α → α × Scanner) (sc : Scanner) (a : α) :
    α × Scanner :=
  if sc.done then (a, sc) else loop sc.pending a

/-! ## The service -/

/-- The Go struct `MemcachedService`; a nil `client` is `none`. -/
structure MemcachedService where
  client : Option Client
  host : GoString
deriving DecidableEq, Repr

/-- Go `NewMemcachedService`: the zero value of the struct. -/
def NewMemcachedService : MemcachedService := ⟨none, []⟩

namespace MemcachedService

variable {σ : Type}

/-- The address `Connect` records for a trimmed address that passed the two
checks: lines 34 to 41 of the source. -/
def resolve (host : GoString) : GoString :=
  let host := if !Contains host ":".toList then host ++ ":11211".toList else host
  if HasPrefix host "memcached:".toList then
    ReplaceFirst host "memcached:".toList "localhost:".toList
  else host

/-- Go `(*MemcachedService).Connect`. -/
def Connect (B : Backend σ) (s : MemcachedService) (url : GoString) (w : World σ) :
    Option String × MemcachedService × World σ :=
  let host := TrimSpace url
  if host = [] then (some "URL is required", s, w)
  else if Contains host "://".toList then (some "invalid URL format", s, w)
  else
    let host := resolve host
    let c : Client := ⟨host, 5⟩
    let r := B.ping host w.srv
    (r.1, ⟨some c, host⟩, ⟨r.2, w.trace ++ [Call.new host, Call.ping host]⟩)

/-- Go `(*MemcachedService).IsConnected`. -/
def IsConnected (s : MemcachedService) : Bool := s.client.isSome

/-- Go `(*MemcachedService).Set`. -/
def Set (B : Backend σ) (s : MemcachedService) (key value : GoString) (w : World σ) :
    Option String × World σ :=
  match s.client with
  | none => (some "not connected to Memcached", w)
  | some c =>
    let key := TrimSpace key
    let value := TrimSpace value
    if key = [] ∨ value = [] then (some "key and value are required", w)
    else if byteLen key > 250 then (some "key too long (max 250 characters)", w)
    else
      let item : Item := ⟨key, value⟩
      let r := B.set c.server item w.srv
      (r.1, ⟨r.2, w.trace ++ [Call.set c.server item]⟩)

/-- Go `(*MemcachedService).Get`. -/
def Get (B : Backend σ) (s : MemcachedService) (key : GoString) (w : World σ) :
    Except String Item × World σ :=
  match s.client with
  | none => (.error "not connected to Memcached", w)
  | some c =>
    if key = [] then (.error "key is required", w)
    else
      let r := B.get c.server key w.srv
      (r.1, ⟨r.2, w.trace ++ [Call.get c.server key]⟩)

/-- The loop of `GetMultiple`: one `client.Get` per key, in order; an item is
appended when the error is nil. -/
def getLoop (B : Backend σ) (c : Client) :
    List GoString → List Item → World σ → List Item × World σ
  | [], items, w => (items, w)
  | key :: keys, items, w =>
    let r := B.get c.server key w.srv
    let w1 : World σ := ⟨r.2, w.trace ++ [Call.get c.server key]⟩
    match r.1 with
    | .ok item => getLoop B c keys (items ++ [item]) w1
    | .error _ => getLoop B c keys items w1

/-- Go `(*MemcachedService).GetMultiple`. -/
def GetMultiple (B : Backend σ) (s : MemcachedService) (keys : List GoString) (w : World σ) :
    Except String (List Item) × World σ :=
  match s.client with
  | none => (.error "not connected to Memcached", w)
  | some c =>
    if keys.length = 0 then (.error "at least one key is required", w)
    else
      let r := getLoop B c keys [] w
      if r.1.length = 0 then (.error "no items found", r.2)
      else (.ok r.1, r.2)

/-- Go `(*MemcachedService).Delete`. -/
def Delete (B : Backend σ) (s : MemcachedService) (key : GoString) (w : World σ) :
    Option String × World σ :=
  match s.client with
  | none => (some "not connected to Memcached", w)
  | some c =>
    if key = [] then (some "key is required", w)
    else
      let r := B.delete c.server key w.srv
      (r.1, ⟨r.2, w.trace ++ [Call.delete c.server key]⟩)

/-- Go `(*MemcachedService).FlushAll`. -/
def FlushAll (B : Backend σ) (s : MemcachedService) (w : World σ) :
    Option String × World σ :=
  match s.client with
  | none => (some "not connected to Memcached", w)
  | some c =>
    let r := B.flushAll c.server w.srv
    (r.1, ⟨r.2, w.trace ++ [Call.flushAll c.server]⟩)

/-- The command `fmt.Fprintf(conn, "stats cachedump %d 0\r\n", slabID)` writes. -/
def cachedumpCmd (slabID : Int) : GoString :=
  "stats cachedump ".toList ++ formatInt slabID ++ " 0\r\n".toList

/-- The outer loop of `GetAllKeys` (lines 161 to 174): for each slab identifier
the command is written, the server's answer joins the stream behind what is
still unread, and the inner loop reads from the scanner. -/
def slabLoop (B : Backend σ) (addr : GoString) :
    List Int → Scanner → List GoString → World σ → List GoString × Scanner × World σ
  | [], sc, keys, w => (keys, sc, w)
  | slabID :: ids, sc, keys, w =>
    let r := B.write addr (cachedumpCmd slabID) w.srv
    let w1 : World σ := ⟨r.2, w.trace ++ [Call.write addr (cachedumpCmd slabID)]⟩
    let d := scanWith dumpLoop ⟨sc.pending ++ r.1, sc.done⟩ keys
    slabLoop B addr ids d.2 d.1 w1

/-- Go `(*MemcachedService).GetAllKeys`. -/
def GetAllKeys (B : Backend σ) (s : MemcachedService) (w : World σ) :
    Except String (List GoString) × World σ :=
  match s.client with
  | none => (.error "not connected to Memcached", w)
  | some _ =>
    let d := B.dial s.host w.srv
    match d.1 with
    | some err => (.error ("failed to connect: " ++ err), ⟨d.2, w.trace ++ [Call.dial s.host]⟩)
    | none =>
      let r := B.write s.host "stats items\r\n".toList d.2
      let w1 : World σ :=
        ⟨r.2, w.trace ++ [Call.dial s.host, Call.write s.host "stats items\r\n".toList]⟩
      let p := scanWith statsLoop ⟨r.1, false⟩ []
      let q := slabLoop B s.host (B.rangeOrder p.1) p.2 [] w1
      (.ok q.1, ⟨q.2.2.srv, q.2.2.trace ++ [Call.close s.host]⟩)

end MemcachedService

/-! ## The request handlers of `handlers/handlers.go` -/

namespace models

/-- Go `models.ConnectRequest`. -/
structure ConnectRequest where
  URL : GoString
deriving DecidableEq, Repr

/-- Go `models.ConnectResponse`; an empty field is omitted from the JSON. -/
structure ConnectResponse where
  Success : Bool
  Message : String
  Error : String
deriving DecidableEq, Repr

/-- Go `models.ItemRequest`. -/
structure ItemRequest where
  Key : GoString
  Keys : List GoString
  Value : GoString
deriving DecidableEq, Repr

/-- Go `models.Item`. -/
structure Item where
  Key : GoString
  Value : GoString
deriving DecidableEq, Repr

/-- Go `models.ItemResponse`. -/
structure ItemResponse where
  Success : Bool
  Message : String
  Error : String
  Items : List Item
deriving DecidableEq, Repr

end models

/-- What a handler writes with `c.JSON(code, body)`. -/
structure Reply (β : Type) where
  code : Nat
  body : β
deriving DecidableEq, Repr

namespace Handler

variable {σ : Type}

open MemcachedService

/-- Go `(*Handler).HandleConnect`.  The request is the outcome of
`c.ShouldBindJSON(&req)`, `none` when the body cannot be bound. -/
def HandleConnect (B : Backend σ) (s : MemcachedService) (req : Option models.ConnectRequest)
    (w : World σ) : Reply models.ConnectResponse × MemcachedService × World σ :=
  match req with
  | none => (⟨400, ⟨false, "", "Invalid data"⟩⟩, s, w)
  | some req =>
    if req.URL = [] then (⟨400, ⟨false, "", "URL is required"⟩⟩, s, w)
    else
      let r := Connect B s req.URL w
      match r.1 with
      | some err => (⟨500, ⟨false, "", "Unable to connect: " ++ err⟩⟩, r.2)
      | none => (⟨200, ⟨true, "Connection successful!", ""⟩⟩, r.2)

/-- Go `(*Handler).HandleSet`. -/
def HandleSet (B : Backend σ) (s : MemcachedService) (req : Option models.ItemRequest)
    (w : World σ) : Reply models.ItemResponse × World σ :=
  match req with
  | none => (⟨400, ⟨false, "", "Invalid data", []⟩⟩, w)
  | some req =>
    let r := MemcachedService.Set B s req.Key req.Value w
    match r.1 with
    | some err => (⟨500, ⟨false, "", "Error saving: " ++ err, []⟩⟩, r.2)
    | none => (⟨200, ⟨true, "Item saved successfully!", "", []⟩⟩, r.2)

/-- Go `(*Handler).HandleGet`. -/
def HandleGet (B : Backend σ) (s : MemcachedService) (req : Option models.ItemRequest)
    (w : World σ) : Reply models.ItemResponse × World σ :=
  match req with
  | none => (⟨400, ⟨false, "", "Invalid data", []⟩⟩, w)
  | some req =>
    let r := Get B s req.Key w
    match r.1 with
    | .error err => (⟨404, ⟨false, "", "Item not found: " ++ err, []⟩⟩, r.2)
    | .ok item => (⟨200, ⟨true, "", "", [⟨item.Key, item.Value⟩]⟩⟩, r.2)

/-- Go `(*Handler).HandleGetMultiple`. -/
def HandleGetMultiple (B : Backend σ) (s : MemcachedService) (req : Option models.ItemRequest)
    (w : World σ) : Reply models.ItemResponse × World σ :=
  match req with
  | none => (⟨400, ⟨false, "", "Invalid data", []⟩⟩, w)
  | some req =>
    let r := GetMultiple B s req.Keys w
    match r.1 with
    | .error err => (⟨404, ⟨false, "", err, []⟩⟩, r.2)
    | .ok items =>
      (⟨200, ⟨true, "", "", items.map (fun item => ⟨item.Key, item.Value⟩)⟩⟩, r.2)

/-- Go `(*Handler).HandleDelete`. -/
def HandleDelete (B : Backend σ) (s : MemcachedService) (req : Option models.ItemRequest)
    (w : World σ) : Reply models.ItemResponse × World σ :=
  match req with
  | none => (⟨400, ⟨false, "", "Invalid data", []⟩⟩, w)
  | some req =>
    let r := Delete B s req.Key w
    match r.1 with
    | some err => (⟨500, ⟨false, "", "Error deleting: " ++ err, []⟩⟩, r.2)
    | none => (⟨200, ⟨true, "Item deleted successfully!", "", []⟩⟩, r.2)

/-- Go `(*Handler).HandleFlush`. -/
def HandleFlush (B : Backend σ) (s : MemcachedService) (w : World σ) :
    Reply models.ItemResponse × World σ :=
  let r := FlushAll B s w
  match r.1 with
  | some err => (⟨500, ⟨false, "", "Error flushing cache: " ++ err, []⟩⟩, r.2)
  | none => (⟨200, ⟨true, "All items cleared successfully!", "", []⟩⟩, r.2)

/-- Go `(*Handler).HandleListKeys`. -/
def HandleListKeys (B : Backend σ) (s : MemcachedService) (w : World σ) :
    Reply models.ItemResponse × World σ :=
  let r := GetAllKeys B s w
  match r.1 with
  | .error err => (⟨500, ⟨false, "", "Error listing keys: " ++ err, []⟩⟩, r.2)
  | .ok keys =>
    (⟨200, ⟨true, "Found " ++ toString keys.length ++ " keys", "",
      keys.map (fun key => ⟨key, []⟩)⟩⟩, r.2)

end Handler

/-! ## A cache server as a key-to-value store -/

/-- The `legalKey` check of the `gomemcache` client: at most 250 bytes, none
of them a control character, a space or DEL. -/
def legalKey (key : GoString) : Bool :=
  decide (byteLen key ≤ 250) && key.all (fun c => decide (0x20 < c.toNat) && c.toNat != 0x7f)

/-- The contents of the cache server: the stored values, newest first. -/
abbrev Store := List (GoString × GoString)

/-- The value stored under a key. -/
def Store.find (st : Store) (key : GoString) : Option GoString :=
  match st with
  | [] => none
  | (k, v) :: rest => if k = key then some v else Store.find rest key

/-- The store after a write: the value replaces any earlier one. -/
def Store.put (st : Store) (key value : GoString) : Store :=
  (key, value) :: st.filter (fun kv => kv.1 ≠ key)

/-- The lines the store sends for a diagnostic command: every item is in
storage class 1. -/
def Store.stats (st : Store) (cmd : GoString) : List GoString :=
  if cmd = "stats items\r\n".toList then
    (if st = [] then [] else ["STAT items:1:number ".toList ++ (Nat.repr st.length).toList])
      ++ ["END".toList]
  else if cmd = "stats cachedump 1 0\r\n".toList then
    st.map (fun kv => "ITEM ".toList ++ kv.1 ++ " [0 b; 0 s]".toList) ++ ["END".toList]
  else ["END".toList]

/-- The error of the client library when the server cannot be reached. -/
def unreachable : String := "dial tcp: connect: connection refused"

/-- A cache server holding a key-to-value store, seen through a client library
that accepts the keys satisfying `legal`.  When `up` is false the server
cannot be reached: every call fails and the store is untouched. -/
def kvBackend (legal : GoString → Bool) (up : Bool) : Backend Store where
  ping := fun _ st => (if up then none else some unreachable, st)
  set := fun _ item st =>
    if !up then (some unreachable, st)
    else if legal item.Key then (none, st.put item.Key item.Value)
    else (some "malformed: key is too long or contains invalid characters", st)
  get := fun _ key st =>
    if !up then (.error unreachable, st)
    else if legal key then
      match st.find key with
      | some v => (.ok ⟨key, v⟩, st)
      | none => (.error "memcache: cache miss", st)
    else (.error "malformed: key is too long or contains invalid characters", st)
  delete := fun _ key st =>
    if !up then (some unreachable, st)
    else if legal key then
      match st.find key with
      | some _ => (none, st.filter (fun kv => kv.1 ≠ key))
      | none => (some "memcache: cache miss", st)
    else (some "malformed: key is too long or contains invalid characters", st)
  flushAll := fun _ st => if up then (none, []) else (some unreachable, st)
  dial := fun _ st => (if up then none else some unreachable, st)
  write := fun _ cmd st => (if up then st.stats cmd else [], st)
  rangeOrder := fun ids => ids

/-- A service holding a client for `localhost:11211`. -/
def connectedService : MemcachedService :=
  ⟨some ⟨"localhost:11211".toList, 5⟩, "localhost:11211".toList⟩

/-- An empty store and an empty trace. -/
def emptyWorld : World Store := ⟨[], []⟩

/-! ## Sequences of calls and the statements to be proved about them -/

/-- The errors returned by a sequence of `Connect` calls, and the service and
the world after them. -/
def connectAll {σ : Type} (B : Backend σ) :
    List GoString → MemcachedService → World σ → List (Option String) × MemcachedService × World σ
  | [], s, w => ([], s, w)
  | url :: urls, s, w =>
    let r := MemcachedService.Connect B s url w
    let q := connectAll B urls r.2.1 r.2.2
    (r.1 :: q.1, q.2)

/-- The address passes the two checks of `Connect`: it is not empty after
trimming and has no "://". -/
def validAddress (url : GoString) : Prop :=
  TrimSpace url ≠ [] ∧ Contains (TrimSpace url) "://".toList = false

instance (url : GoString) : Decidable (validAddress url) := by
  unfold validAddress; infer_instance

/-- The answers of the client library to one `Get` per key, in the order of the
keys, each one from the state the previous one left. -/
def fetchEach {σ : Type} (B : Backend σ) (server : GoString) :
    List GoString → σ → List (Except String Item) × σ
  | [], st => ([], st)
  | key :: keys, st =>
    let r := B.get server key st
    let q := fetchEach B server keys r.2
    (r.1 :: q.1, q.2)

/-- The items of the answers that are not errors, in order. -/
def found (answers : List (Except String Item)) : List Item :=
  answers.filterMap (fun a => match a with
    | .ok item => some item
    | .error _ => none)

/-- The lines read before the first "END" line. -/
def beforeEnd (lines : List GoString) : List GoString :=
  lines.takeWhile (fun line => line != "END".toList)

/-- The text `STAT items:<ds>:number`, with `ds` a non-empty run of decimal
digits, stands in `line` right after `pre`. -/
def StatAt (line pre ds : GoString) : Prop :=
  ds ≠ [] ∧ (∀ c ∈ ds, isDigit c = true) ∧
    ∃ post, line = pre ++ ("STAT items:".toList ++ (ds ++ (":number".toList ++ post)))

/-- The leftmost occurrence of the text `STAT items:<ds>:number` in `line` has
the digits `ds`. -/
def FirstStat (line ds : GoString) : Prop :=
  ∃ pre, StatAt line pre ds ∧ ∀ pre2 ds2, StatAt line pre2 ds2 → pre.length ≤ pre2.length

/-- A reachable server whose answers on the raw connection are given by
`script`, a function of the command; the item calls succeed and find
nothing, and a map is iterated in the order of insertion. -/
def scriptBackend (script : GoString → List GoString) : Backend Unit where
  ping := fun _ st => (none, st)
  set := fun _ _ st => (none, st)
  get := fun _ _ st => (.error "memcache: cache miss", st)
  delete := fun _ _ st => (some "memcache: cache miss", st)
  flushAll := fun _ st => (none, st)
  dial := fun _ st => (none, st)
  write := fun _ cmd st => (script cmd, st)
  rangeOrder := fun ids => ids

/-- Two storage classes: class 1 reports the key `a`, class 2 the keys `a`
and `b`; every answer ends with "END". -/
def twoClasses (cmd : GoString) : List GoString :=
  if cmd = "stats items\r\n".toList then
    ["STAT items:1:number 1".toList, "STAT items:2:number 2".toList, "END".toList]
  else if cmd = "stats cachedump 1 0\r\n".toList then
    ["ITEM a [1 b; 0 s]".toList, "END".toList]
  else if cmd = "stats cachedump 2 0\r\n".toList then
    ["ITEM a [1 b; 0 s]".toList, "ITEM b [1 b; 0 s]".toList, "END".toList]
  else ["END".toList]

/-- One storage class whose dump breaks off after the first of its two
items: the stream ends with no "END" line. -/
def brokenDump (cmd : GoString) : List GoString :=
  if cmd = "stats items\r\n".toList then
    ["STAT items:1:number 2".toList, "END".toList]
  else if cmd = "stats cachedump 1 0\r\n".toList then
    ["ITEM a [1 b; 0 s]".toList]
  else ["ERROR".toList]

/-- A world with nothing in it and no call made. -/
def unitWorld : World Unit := ⟨(), []⟩

/-- Go visits every key of a map exactly once when it ranges over it. -/
def RangesOverKeys {σ : Type} (B : Backend σ) : Prop :=
  ∀ ids : List Int, (B.rangeOrder ids).Perm ids

/-- The text `ITEM <k>`, with `k` a non-empty run of characters outside the
class `\s` that is followed by the end of the line or by a character of the
class, stands in `line` right after `pre`. -/
def ItemAt (line pre k : GoString) : Prop :=
  k ≠ [] ∧ (∀ c ∈ k, isReSpace c = false) ∧
    ∃ post, line = pre ++ ("ITEM ".toList ++ (k ++ post)) ∧
      ∀ c, post.head? = some c → isReSpace c = true

/-- The leftmost occurrence of the text `ITEM <k>` in `line` has the key `k`. -/
def FirstItem (line k : GoString) : Prop :=
  ∃ pre, ItemAt line pre k ∧ ∀ pre2 k2, ItemAt line pre2 k2 → pre.length ≤ pre2.length

/-- The keys read in the inner loop of each storage class, class by class:
the scanner and the server state are passed from one class to the next, the
keys of a class are collected from an empty list. -/
def classDumps {σ : Type} (B : Backend σ) (addr : GoString) :
    List Int → Scanner → σ → List (List GoString)
  | [], _, _ => []
  | slabID :: ids, sc, st =>
    let r := B.write addr (MemcachedService.cachedumpCmd slabID) st
    let d := scanWith dumpLoop ⟨sc.pending ++ r.1, sc.done⟩ []
    d.1 :: classDumps B addr ids d.2 r.2

/-- The answers of the server to the dump commands of the classes, in the
order the classes are visited. -/
def dumpReplies {σ : Type} (B : Backend σ) (addr : GoString) :
    List Int → σ → List (List GoString)
  | [], _ => []
  | slabID :: ids, st =>
    let r := B.write addr (MemcachedService.cachedumpCmd slabID) st
    r.1 :: dumpReplies B addr ids r.2

/-- The answer of the server to "stats items" on the connection `GetAllKeys`
dials, with the server state after it. -/
def statsReply {σ : Type} (B : Backend σ) (s : MemcachedService) (w : World σ) :
    List GoString × σ :=
  B.write s.host "stats items\r\n".toList (B.dial s.host w.srv).2

/-- The storage-class identifiers the first phase records. -/
def discovered {σ : Type} (B : Backend σ) (s : MemcachedService) (w : World σ) : List Int :=
  (statsLoop (statsReply B s w).1 []).1

/-- The storage classes in the order the second phase visits them. -/
def visited {σ : Type} (B : Backend σ) (s : MemcachedService) (w : World σ) : List Int :=
  B.rangeOrder (discovered B s w)

/-- Every answer of the server to the two commands `GetAllKeys` writes is a
run of lines other than "END" followed by one "END" line. -/
def EndTerminated {σ : Type} (B : Backend σ) : Prop :=
  ∀ addr cmd st,
    (cmd = "stats items\r\n".toList ∨ ∃ id, cmd = MemcachedService.cachedumpCmd id) →
    ∃ body, (B.write addr cmd st).1 = body ++ ["END".toList] ∧ "END".toList ∉ body

/-! ## Facts about the string functions -/

theorem Contains_iff (s sub : GoString) : Contains s sub = true ↔ sub <:+: s := by
  induction s with
  | nil => simp [Contains, List.isEmpty_iff]
  | cons c s ih =>
    simp only [Contains, Bool.or_eq_true, List.isPrefixOf_iff_prefix, ih, List.infix_cons_iff]

theorem Contains_false_iff (s sub : GoString) : Contains s sub = false ↔ ¬ sub <:+: s := by
  rw [← Contains_iff]; simp

theorem infix_dropWhile (p : Char → Bool) (c : Char) (t s : GoString) (hc : p c = false)
    (h : (c :: t) <:+: s) : (c :: t) <:+: s.dropWhile p := by
  induction s with
  | nil => simp at h
  | cons a s ih =>
    by_cases ha : p a = true
    · rw [List.dropWhile_cons_of_pos ha]
      rcases List.infix_cons_iff.mp h with hp | hi
      · have : c = a := by
          obtain ⟨r, hr⟩ := hp
          simpa using (List.cons_eq_cons.mp (by simpa using hr)).1
        rw [this, ha] at hc
        exact absurd hc (by simp)
      · exact ih hi
    · rw [List.dropWhile_cons_of_neg ha]; exact h

theorem byteLen_replicate_a (n : Nat) : byteLen (List.replicate n 'a') = n := by
  induction n with
  | zero => rfl
  | succ n ih =>
    have h1 : Char.utf8Size 'a' = 1 := by decide
    simp only [byteLen, List.replicate_succ, List.map_cons, List.sum_cons, h1] at ih ⊢
    omega

theorem TrimSpace_eq_self (s : GoString)
    (hh : ∀ c, s.head? = some c → isSpace c = false)
    (hl : ∀ c, s.getLast? = some c → isSpace c = false) : TrimSpace s = s := by
  have h1 : trimLeft s = s := by
    cases s with
    | nil => rfl
    | cons a t =>
      have := hh a rfl
      simp [trimLeft, List.dropWhile_cons, this]
  have h2 : trimRight s = s := by
    unfold trimRight
    cases hr : s.reverse with
    | nil => simp at hr; simp [hr]
    | cons a t =>
      have hs : s = (a :: t).reverse := by rw [← hr, List.reverse_reverse]
      have : isSpace a = false := by
        apply hl a
        rw [hs]; simp
      rw [List.dropWhile_cons, this]
      simp [hs]
  rw [TrimSpace, h1, h2]

theorem trace_append_ne (t : List Call) (c : Call) : t ≠ t ++ [c] := by
  intro h
  have := congrArg List.length h
  simp at this

/-! ## Validation in `Set` -/

open MemcachedService

variable {σ : Type}

theorem Set_of_valid (B : Backend σ) (s : MemcachedService) (c : Client)
    (key value : GoString) (w : World σ) (hc : s.client = some c)
    (hv : TrimSpace key ≠ [] ∧ TrimSpace value ≠ [] ∧ byteLen (TrimSpace key) ≤ 250) :
    Set B s key value w =
      ((B.set c.server ⟨TrimSpace key, TrimSpace value⟩ w.srv).1,
        ⟨(B.set c.server ⟨TrimSpace key, TrimSpace value⟩ w.srv).2,
          w.trace ++ [Call.set c.server ⟨TrimSpace key, TrimSpace value⟩]⟩) := by
  obtain ⟨hk, hv, hl⟩ := hv
  have h : ¬ (TrimSpace key = [] ∨ TrimSpace value = []) := by simp [hk, hv]
  have hl2 : ¬ 250 < byteLen (TrimSpace key) := by omega
  simp only [MemcachedService.Set, hc, if_neg h, gt_iff_lt, if_neg hl2]

/-- C1 (as amended): on a connected service `Set` makes exactly one call of the
client library's `Set`, with the trimmed key and the trimmed value, and
returns its result, if and only if both are non-empty and the trimmed key has
at most 250 bytes; if one of them is empty after trimming it makes no call
and returns "key and value are required"; otherwise, if the trimmed key has
more than 250 bytes, it makes no call and returns
"key too long (max 250 characters)".  The call is a write on the server only
when the library accepts the key: against the key-to-value store, the value
is stored when the trimmed key passes the library's key check, and otherwise
the library's malformed-key error comes back and the store is untouched. -/
theorem Set_validates_trimmed (B : Backend σ) (s : MemcachedService) (c : Client)
    (key value : GoString) (w : World σ) (w2 : World Store) (hc : s.client = some c) :
    ((TrimSpace key ≠ [] ∧ TrimSpace value ≠ [] ∧ byteLen (TrimSpace key) ≤ 250) →
      Set B s key value w =
        ((B.set c.server ⟨TrimSpace key, TrimSpace value⟩ w.srv).1,
          ⟨(B.set c.server ⟨TrimSpace key, TrimSpace value⟩ w.srv).2,
            w.trace ++ [Call.set c.server ⟨TrimSpace key, TrimSpace value⟩]⟩)) ∧
    ((TrimSpace key = [] ∨ TrimSpace value = []) →
      Set B s key value w = (some "key and value are required", w)) ∧
    ((TrimSpace key ≠ [] ∧ TrimSpace value ≠ [] ∧ 250 < byteLen (TrimSpace key)) →
      Set B s key value w = (some "key too long (max 250 characters)", w)) ∧
    ((Set B s key value w).2.trace =
        w.trace ++ [Call.set c.server ⟨TrimSpace key, TrimSpace value⟩] ↔
      (TrimSpace key ≠ [] ∧ TrimSpace value ≠ [] ∧ byteLen (TrimSpace key) ≤ 250)) ∧
    ((TrimSpace key ≠ [] ∧ TrimSpace value ≠ [] ∧ byteLen (TrimSpace key) ≤ 250) →
      (legalKey (TrimSpace key) = true →
        Set (kvBackend legalKey true) s key value w2 =
          (none, ⟨w2.srv.put (TrimSpace key) (TrimSpace value),
            w2.trace ++ [Call.set c.server ⟨TrimSpace key, TrimSpace value⟩]⟩)) ∧
      (legalKey (TrimSpace key) = false →
        Set (kvBackend legalKey true) s key value w2 =
          (some "malformed: key is too long or contains invalid characters",
            ⟨w2.srv, w2.trace ++ [Call.set c.server ⟨TrimSpace key, TrimSpace value⟩]⟩))) := by
  have e1 : (TrimSpace key = [] ∨ TrimSpace value = []) →
      Set B s key value w = (some "key and value are required", w) := by
    intro h
    simp only [MemcachedService.Set, hc, if_pos h]
  have e2 : (TrimSpace key ≠ [] ∧ TrimSpace value ≠ [] ∧ 250 < byteLen (TrimSpace key)) →
      Set B s key value w = (some "key too long (max 250 characters)", w) := by
    rintro ⟨hk, hv, hl⟩
    have h : ¬ (TrimSpace key = [] ∨ TrimSpace value = []) := by simp [hk, hv]
    simp only [MemcachedService.Set, hc, if_neg h, gt_iff_lt, if_pos hl]
  have e3 : (TrimSpace key ≠ [] ∧ TrimSpace value ≠ [] ∧ byteLen (TrimSpace key) ≤ 250) →
      Set B s key value w =
        ((B.set c.server ⟨TrimSpace key, TrimSpace value⟩ w.srv).1,
          ⟨(B.set c.server ⟨TrimSpace key, TrimSpace value⟩ w.srv).2,
            w.trace ++ [Call.set c.server ⟨TrimSpace key, TrimSpace value⟩]⟩) := by
    rintro ⟨hk, hv, hl⟩
    have h : ¬ (TrimSpace key = [] ∨ TrimSpace value = []) := by simp [hk, hv]
    have hl2 : ¬ 250 < byteLen (TrimSpace key) := by omega
    simp only [MemcachedService.Set, hc, if_neg h, gt_iff_lt, if_neg hl2]
  refine ⟨e3, e1, e2, ⟨?_, fun h => by rw [e3 h]⟩, fun h => ⟨fun hl => ?_, fun hl => ?_⟩⟩
  rotate_left
  · rw [Set_of_valid (kvBackend legalKey true) s c key value w2 hc h]
    simp [kvBackend, hl]
  · rw [Set_of_valid (kvBackend legalKey true) s c key value w2 hc h]
    simp [kvBackend, hl]
  intro ht
  by_contra hn
  by_cases h1 : TrimSpace key = [] ∨ TrimSpace value = []
  · rw [e1 h1] at ht
    exact trace_append_ne _ _ ht
  · have hk : TrimSpace key ≠ [] := fun h => h1 (Or.inl h)
    have hv : TrimSpace value ≠ [] := fun h => h1 (Or.inr h)
    have hl : 250 < byteLen (TrimSpace key) := by
      by_contra hl
      exact hn ⟨hk, hv, by omega⟩
    rw [e2 ⟨hk, hv, hl⟩] at ht
    exact trace_append_ne _ _ ht

set_option maxRecDepth 1000000 in
/-- C1, the statement as written fails, in two ways.  A key of exactly 251
bytes, a space followed by 250 letters, is accepted on a connected service;
the write is sent under the 250-byte trimmed key and no length error is
returned.  And the key "a b", which is not empty and has fewer than 250
bytes, passes the validation of `Set` but is refused by the client library:
its malformed-key error comes back and nothing is written to the store. -/
theorem Set_key_of_251_bytes_accepted :
    byteLen (' ' :: List.replicate 250 'a') = 251 ∧
    Set (kvBackend legalKey true) connectedService (' ' :: List.replicate 250 'a')
        "v".toList emptyWorld =
      (none, ⟨[(List.replicate 250 'a', "v".toList)],
        [Call.set "localhost:11211".toList ⟨List.replicate 250 'a', "v".toList⟩]⟩) ∧
    Set (kvBackend legalKey true) connectedService "a b".toList "v".toList emptyWorld =
      (some "malformed: key is too long or contains invalid characters",
        ⟨[], [Call.set "localhost:11211".toList ⟨"a b".toList, "v".toList⟩]⟩) := by
  decide

/-- C1, the amended statement at concrete inputs on a service connected to a
key-to-value store: the padded key " k " with the value "v" is written under
"k", and the padded key " a b " is handed over as "a b" and refused by the
client library. -/
theorem Set_validates_trimmed_witness :
    connectedService.client = some ⟨"localhost:11211".toList, 5⟩ ∧
    (TrimSpace " k ".toList ≠ [] ∧ TrimSpace "v".toList ≠ [] ∧
      byteLen (TrimSpace " k ".toList) ≤ 250) ∧
    Set (kvBackend legalKey true) connectedService " k ".toList "v".toList emptyWorld =
      (none, ⟨[("k".toList, "v".toList)],
        [Call.set "localhost:11211".toList ⟨"k".toList, "v".toList⟩]⟩) ∧
    (TrimSpace " a b ".toList ≠ [] ∧ TrimSpace "v".toList ≠ [] ∧
      byteLen (TrimSpace " a b ".toList) ≤ 250) ∧
    legalKey (TrimSpace " a b ".toList) = false ∧
    Set (kvBackend legalKey true) connectedService " a b ".toList "v".toList emptyWorld =
      (some "malformed: key is too long or contains invalid characters",
        ⟨[], [Call.set "localhost:11211".toList ⟨"a b".toList, "v".toList⟩]⟩) :=
  ⟨rfl, by decide,
    ((Set_validates_trimmed (kvBackend legalKey true) connectedService
      ⟨"localhost:11211".toList, 5⟩ " k ".toList "v".toList emptyWorld emptyWorld rfl).1
      (by decide)).trans (by decide),
    by decide, by decide,
    (((Set_validates_trimmed (kvBackend legalKey true) connectedService
      ⟨"localhost:11211".toList, 5⟩ " a b ".toList "v".toList emptyWorld emptyWorld
      rfl).2.2.2.2 (by decide)).2 (by decide)).trans (by decide)⟩

/-! ## Address resolution in `Connect` -/

theorem Contains_colon_iff (s : GoString) : Contains s ":".toList = true ↔ ':' ∈ s := by
  induction s with
  | nil => decide
  | cons c s ih =>
    have h : (":".toList.isPrefixOf (c :: s)) = (':' == c) := by
      show ([':'].isPrefixOf (c :: s)) = (':' == c)
      simp [List.isPrefixOf]
    simp only [Contains, h, Bool.or_eq_true, ih, List.mem_cons, beq_iff_eq]

theorem takeWhile_before_colon (a rest : GoString) (h : ':' ∉ a) :
    (a ++ ':' :: rest).takeWhile (fun c => c != ':') = a := by
  induction a with
  | nil => simp
  | cons x a ih =>
    have hx : x ≠ ':' := fun e => h (by simp [e])
    have ha : ':' ∉ a := fun e => h (by simp [e])
    simp [List.takeWhile_cons, hx, ih ha]

theorem ReplaceFirst_alias (p : GoString) :
    ReplaceFirst ("memcached:".toList ++ p) "memcached:".toList "localhost:".toList =
      "localhost:".toList ++ p := by
  show ReplaceFirst ('m' :: ("emcached:".toList ++ p)) "memcached:".toList "localhost:".toList = _
  have h : "memcached:".toList.isPrefixOf ('m' :: ("emcached:".toList ++ p)) = true := by
    rw [List.isPrefixOf_iff_prefix]
    exact ⟨p, rfl⟩
  rw [ReplaceFirst, if_pos h]
  rfl

theorem resolve_alias (p : GoString) :
    resolve ("memcached:".toList ++ p) = "localhost:".toList ++ p := by
  have h1 : Contains ("memcached:".toList ++ p) ":".toList = true := by
    rw [Contains_colon_iff]
    exact List.mem_append_left _ (by decide)
  have h2 : HasPrefix ("memcached:".toList ++ p) "memcached:".toList = true := by
    rw [HasPrefix, List.isPrefixOf_iff_prefix]
    exact ⟨p, rfl⟩
  simp only [resolve, h1, Bool.not_true, Bool.false_eq_true, if_false, h2, if_true,
    ReplaceFirst_alias]

theorem resolve_no_port (h : GoString) (hc : Contains h ":".toList = false) :
    resolve h =
      if h = "memcached".toList then "localhost:11211".toList else h ++ ":11211".toList := by
  have hm : ':' ∉ h := by
    rw [← Contains_colon_iff, hc]; simp
  by_cases he : h = "memcached".toList
  · rw [if_pos he, he]
    exact resolve_alias "11211".toList
  · rw [if_neg he]
    have hp : HasPrefix (h ++ ":11211".toList) "memcached:".toList = false := by
      rw [HasPrefix, Bool.eq_false_iff]
      intro hp
      rw [List.isPrefixOf_iff_prefix] at hp
      obtain ⟨t, ht⟩ := hp
      have e1 := takeWhile_before_colon h "11211".toList hm
      have e2 := takeWhile_before_colon "memcached".toList t (by decide)
      have e3 : h ++ ':' :: "11211".toList = "memcached".toList ++ ':' :: t :=
        ht.symm
      rw [e3, e2] at e1
      exact he e1.symm
    simp only [resolve, hc, Bool.not_false, if_true, hp, Bool.false_eq_true, if_false]

theorem Connect_of_valid (B : Backend σ) (s : MemcachedService) (url : GoString) (w : World σ)
    (h1 : TrimSpace url ≠ []) (h2 : Contains (TrimSpace url) "://".toList = false) :
    Connect B s url w =
      ((B.ping (resolve (TrimSpace url)) w.srv).1,
        ⟨some ⟨resolve (TrimSpace url), 5⟩, resolve (TrimSpace url)⟩,
        ⟨(B.ping (resolve (TrimSpace url)) w.srv).2,
          w.trace ++ [Call.new (resolve (TrimSpace url)), Call.ping (resolve (TrimSpace url))]⟩) := by
  simp only [Connect, if_neg h1, h2, Bool.false_eq_true, if_false]

theorem no_scheme_of_no_colon (h : GoString) (hc : Contains h ":".toList = false) :
    Contains h "://".toList = false := by
  rw [Contains_false_iff] at hc ⊢
  intro hi
  exact hc (List.IsInfix.trans ⟨[], "//".toList, rfl⟩ hi)

/-- C2: for an address whose trimmed form is non-empty and has no `:`, `Connect`
targets port 11211: the recorded host, for which the client is created and
which is probed, is the trimmed address followed by ":11211", the alias
"memcached" becoming "localhost:11211". -/
theorem Connect_default_port (B : Backend σ) (s : MemcachedService) (url : GoString)
    (w : World σ) (h1 : TrimSpace url ≠ [])
    (h2 : Contains (TrimSpace url) ":".toList = false) :
    (Connect B s url w).2.1.host =
      (if TrimSpace url = "memcached".toList then "localhost:11211".toList
        else TrimSpace url ++ ":11211".toList) ∧
    (Connect B s url w).2.1.client = some ⟨(Connect B s url w).2.1.host, 5⟩ ∧
    (Connect B s url w).2.2.trace =
      w.trace ++ [Call.new (Connect B s url w).2.1.host, Call.ping (Connect B s url w).2.1.host] ∧
    (Connect B s url w).1 = (B.ping (Connect B s url w).2.1.host w.srv).1 := by
  rw [Connect_of_valid B s url w h1 (no_scheme_of_no_colon _ h2)]
  exact ⟨resolve_no_port _ h2, rfl, rfl, rfl⟩

/-- C2 at the address "localhost", on a new service whose server is down. -/
theorem Connect_default_port_witness :
    TrimSpace "localhost".toList ≠ [] ∧
    Contains (TrimSpace "localhost".toList) ":".toList = false ∧
    (Connect (kvBackend legalKey false) NewMemcachedService "localhost".toList
      emptyWorld).2.1.host = "localhost:11211".toList :=
  ⟨by decide, by decide,
    (Connect_default_port (kvBackend legalKey false) NewMemcachedService "localhost".toList
      emptyWorld (by decide) (by decide)).1.trans (by decide)⟩

/-- C3: for an address whose trimmed form is "memcached:" followed by a port
text `p`, and has no "://", `Connect` records, creates the client for and
probes "localhost:" followed by `p`. -/
theorem Connect_alias_rewritten (B : Backend σ) (s : MemcachedService) (url p : GoString)
    (w : World σ) (h1 : TrimSpace url = "memcached:".toList ++ p)
    (h2 : Contains (TrimSpace url) "://".toList = false) :
    Connect B s url w =
      ((B.ping ("localhost:".toList ++ p) w.srv).1,
        ⟨some ⟨"localhost:".toList ++ p, 5⟩, "localhost:".toList ++ p⟩,
        ⟨(B.ping ("localhost:".toList ++ p) w.srv).2,
          w.trace ++ [Call.new ("localhost:".toList ++ p),
            Call.ping ("localhost:".toList ++ p)]⟩) := by
  have hne : TrimSpace url ≠ [] := by
    rw [h1]; exact fun h => by simp [String.toList] at h
  rw [Connect_of_valid B s url w hne h2, h1, resolve_alias]

/-- C3 at the address "memcached:11211", on a new service whose server is
down. -/
theorem Connect_alias_rewritten_witness :
    TrimSpace "memcached:11211".toList = "memcached:".toList ++ "11211".toList ∧
    Contains (TrimSpace "memcached:11211".toList) "://".toList = false ∧
    (Connect (kvBackend legalKey false) NewMemcachedService "memcached:11211".toList
      emptyWorld).2.1.host = "localhost:11211".toList :=
  ⟨by decide, by decide, by
    rw [Connect_alias_rewritten (kvBackend legalKey false) NewMemcachedService
      "memcached:11211".toList "11211".toList emptyWorld (by decide) (by decide)]
    decide⟩

theorem infix_TrimSpace_scheme (s : GoString) (h : "://".toList <:+: s) :
    "://".toList <:+: TrimSpace s := by
  have h1 : "://".toList <:+: trimLeft s :=
    infix_dropWhile isSpace ':' "//".toList s (by decide) h
  have h2 : "//:".toList <:+: (trimLeft s).reverse := by
    have := List.reverse_infix.mpr h1
    exact this
  have h3 := infix_dropWhile isSpace '/' "/:".toList _ (by decide) h2
  have h4 := List.reverse_infix.mpr h3
  exact h4

/-- C4: for every address containing "://", in every service state, `Connect`
returns "invalid URL format"; the service (host and client) and the world
(server state and trace of calls) are unchanged, so no client is created and
no probe is made. -/
theorem Connect_rejects_scheme (B : Backend σ) (s : MemcachedService) (url : GoString)
    (w : World σ) (h : Contains url "://".toList = true) :
    Connect B s url w = (some "invalid URL format", s, w) := by
  have hi := infix_TrimSpace_scheme url ((Contains_iff _ _).mp h)
  have hc := (Contains_iff _ _).mpr hi
  have hne : TrimSpace url ≠ [] := by
    intro he
    rw [he] at hc
    exact absurd hc (by decide)
  simp only [Connect, if_neg hne, hc, if_true]

/-- C4 at the address "http://localhost:11211", on a connected service. -/
theorem Connect_rejects_scheme_witness :
    Contains "http://localhost:11211".toList "://".toList = true ∧
    Connect (kvBackend legalKey true) connectedService "http://localhost:11211".toList
      emptyWorld = (some "invalid URL format", connectedService, emptyWorld) :=
  ⟨by decide, Connect_rejects_scheme (kvBackend legalKey true) connectedService
    "http://localhost:11211".toList emptyWorld (by decide)⟩

/-! ## The connection state -/

theorem not_connected_of_no_client (B : Backend σ) (s : MemcachedService) (w : World σ)
    (key value : GoString) (keys : List GoString) (h : s.client = none) :
    Set B s key value w = (some "not connected to Memcached", w) ∧
    Get B s key w = (.error "not connected to Memcached", w) ∧
    GetMultiple B s keys w = (.error "not connected to Memcached", w) ∧
    Delete B s key w = (some "not connected to Memcached", w) ∧
    FlushAll B s w = (some "not connected to Memcached", w) ∧
    GetAllKeys B s w = (.error "not connected to Memcached", w) := by
  simp only [MemcachedService.Set, Get, GetMultiple, Delete, FlushAll, GetAllKeys, h, and_self]

theorem Connect_of_invalid (B : Backend σ) (s : MemcachedService) (url : GoString)
    (w : World σ) (h : ¬ validAddress url) :
    (Connect B s url w).1 ≠ none ∧ (Connect B s url w).2 = (s, w) := by
  by_cases h1 : TrimSpace url = []
  · simp [Connect, h1]
  · have h2 : Contains (TrimSpace url) "://".toList = true := by
      by_contra h2
      exact h ⟨h1, by simpa using h2⟩
    simp only [Connect, if_neg h1, h2, if_true]
    simp

theorem client_after_Connect (B : Backend σ) (s : MemcachedService) (url : GoString)
    (w : World σ) :
    IsConnected (Connect B s url w).2.1 = true ↔ (IsConnected s = true ∨ validAddress url) := by
  by_cases h : validAddress url
  · rw [Connect_of_valid B s url w h.1 h.2]
    simp [MemcachedService.IsConnected, h]
  · rw [(Connect_of_invalid B s url w h).2]
    simp [h]

theorem client_after_connectAll (B : Backend σ) (urls : List GoString) (s : MemcachedService)
    (w : World σ) :
    IsConnected (connectAll B urls s w).2.1 = true ↔
      (IsConnected s = true ∨ ∃ url ∈ urls, validAddress url) := by
  induction urls generalizing s w with
  | nil => simp [connectAll]
  | cons url urls ih =>
    simp only [connectAll, ih, client_after_Connect, List.mem_cons, exists_eq_or_imp, or_assoc]

/-- C5, the statement as written fails: on a new service, a `Connect` to
"localhost" whose probe fails (the server cannot be reached) returns the
probe error, and `IsConnected` is true afterwards. -/
theorem IsConnected_after_failed_probe :
    (Connect (kvBackend legalKey false) NewMemcachedService "localhost".toList emptyWorld).1 =
      some unreachable ∧
    IsConnected (Connect (kvBackend legalKey false) NewMemcachedService "localhost".toList
      emptyWorld).2.1 = true := by
  decide

/-- C5 (as amended): after every sequence of `Connect` calls on a new service,
`IsConnected` is true if and only if one of the addresses passed the address
checks, whatever the probes answered; it is false on a new service. -/
theorem IsConnected_iff_some_address_valid (B : Backend σ) (urls : List GoString)
    (w : World σ) :
    (IsConnected (connectAll B urls NewMemcachedService w).2.1 = true ↔
      ∃ url ∈ urls, validAddress url) ∧
    IsConnected NewMemcachedService = false := by
  refine ⟨?_, rfl⟩
  rw [client_after_connectAll]
  simp [MemcachedService.IsConnected, NewMemcachedService]

/-- C6: on a new service each of the six operations returns
"not connected to Memcached" for every argument, before any check of the
arguments, and leaves the world (server state and trace of calls) as it was. -/
theorem new_service_not_connected (B : Backend σ) (w : World σ) (key value : GoString)
    (keys : List GoString) :
    Set B NewMemcachedService key value w = (some "not connected to Memcached", w) ∧
    Get B NewMemcachedService key w = (.error "not connected to Memcached", w) ∧
    GetMultiple B NewMemcachedService keys w = (.error "not connected to Memcached", w) ∧
    Delete B NewMemcachedService key w = (some "not connected to Memcached", w) ∧
    FlushAll B NewMemcachedService w = (some "not connected to Memcached", w) ∧
    GetAllKeys B NewMemcachedService w = (.error "not connected to Memcached", w) :=
  not_connected_of_no_client B NewMemcachedService w key value keys rfl

/-- C7, the statement as written fails: on a new service, after a `Connect` to
"localhost" that returned the probe error, `Set` does not return the
not-connected error: the write is sent and its transport error comes back. -/
theorem Set_after_failed_probe_reaches_server :
    (Connect (kvBackend legalKey false) NewMemcachedService "localhost".toList emptyWorld).1 =
      some unreachable ∧
    Set (kvBackend legalKey false)
        (Connect (kvBackend legalKey false) NewMemcachedService "localhost".toList
          emptyWorld).2.1 "k".toList "v".toList
        (Connect (kvBackend legalKey false) NewMemcachedService "localhost".toList
          emptyWorld).2.2 =
      (some unreachable,
        ⟨[], [Call.new "localhost:11211".toList, Call.ping "localhost:11211".toList,
          Call.set "localhost:11211".toList ⟨"k".toList, "v".toList⟩]⟩) := by
  decide

theorem connectAll_of_invalid (B : Backend σ) (urls : List GoString) (s : MemcachedService)
    (w : World σ) (h : ∀ url ∈ urls, ¬ validAddress url) :
    (∀ e ∈ (connectAll B urls s w).1, e ≠ none) ∧ (connectAll B urls s w).2 = (s, w) := by
  induction urls with
  | nil => simp [connectAll]
  | cons url urls ih =>
    have h1 := Connect_of_invalid B s url w (h url (by simp))
    have h2 := ih (fun u hu => h u (by simp [hu]))
    have e1 : (Connect B s url w).2.1 = s := by rw [h1.2]
    have e2 : (Connect B s url w).2.2 = w := by rw [h1.2]
    simp only [connectAll, e1, e2, List.mem_cons, forall_eq_or_imp]
    exact ⟨⟨h1.1, h2.1⟩, h2.2⟩

/-- C7 (as amended): in every state reached from a new service by `Connect`
calls each of which failed the address checks, every call returned an error,
the service and the world are unchanged, and each of the six operations
returns "not connected to Memcached" without any call to the server. -/
theorem not_connected_until_valid_address (B : Backend σ) (urls : List GoString)
    (w : World σ) (key value : GoString) (keys : List GoString)
    (h : ∀ url ∈ urls, ¬ validAddress url) :
    (∀ e ∈ (connectAll B urls NewMemcachedService w).1, e ≠ none) ∧
    (connectAll B urls NewMemcachedService w).2.2 = w ∧
    Set B (connectAll B urls NewMemcachedService w).2.1 key value w =
      (some "not connected to Memcached", w) ∧
    Get B (connectAll B urls NewMemcachedService w).2.1 key w =
      (.error "not connected to Memcached", w) ∧
    GetMultiple B (connectAll B urls NewMemcachedService w).2.1 keys w =
      (.error "not connected to Memcached", w) ∧
    Delete B (connectAll B urls NewMemcachedService w).2.1 key w =
      (some "not connected to Memcached", w) ∧
    FlushAll B (connectAll B urls NewMemcachedService w).2.1 w =
      (some "not connected to Memcached", w) ∧
    GetAllKeys B (connectAll B urls NewMemcachedService w).2.1 w =
      (.error "not connected to Memcached", w) := by
  have h1 := connectAll_of_invalid B urls NewMemcachedService w h
  refine ⟨h1.1, by rw [h1.2], ?_⟩
  have e : (connectAll B urls NewMemcachedService w).2.1 = NewMemcachedService := by rw [h1.2]
  rw [e]
  exact not_connected_of_no_client B NewMemcachedService w key value keys rfl

/-- C7 (as amended) at a concrete input: an empty address, a blank one and one
with a scheme, then `Set` on a reachable key-to-value store. -/
theorem not_connected_until_valid_address_witness :
    (∀ url ∈ ["".toList, "  ".toList, "http://localhost:11211".toList], ¬ validAddress url) ∧
    Set (kvBackend legalKey true)
        (connectAll (kvBackend legalKey true)
          ["".toList, "  ".toList, "http://localhost:11211".toList]
          NewMemcachedService emptyWorld).2.1 "k".toList "v".toList emptyWorld =
      (some "not connected to Memcached", emptyWorld) :=
  ⟨by decide,
    (not_connected_until_valid_address (kvBackend legalKey true)
      ["".toList, "  ".toList, "http://localhost:11211".toList] emptyWorld
      "k".toList "v".toList [] (by decide)).2.2.1⟩

/-! ## Round trip through a key-to-value store -/

theorem Store.find_put (st : Store) (key value : GoString) :
    (st.put key value).find key = some value := by
  simp [Store.put, Store.find]

/-- C8, the statement as written fails, in two ways.  `Set` of the value " v "
under "k" succeeds and the following `Get` of "k" returns "v", not " v ".
`Set` under the key " k " succeeds and the following `Get` of " k " fails,
the item being stored under "k". -/
theorem Get_after_Set_not_exact :
    ((Set (kvBackend legalKey true) connectedService "k".toList " v ".toList emptyWorld).1 =
        none ∧
      (Get (kvBackend legalKey true) connectedService "k".toList
        (Set (kvBackend legalKey true) connectedService "k".toList " v ".toList
          emptyWorld).2).1 = .ok ⟨"k".toList, "v".toList⟩) ∧
    ((Set (kvBackend legalKey true) connectedService " k ".toList "v".toList emptyWorld).1 =
        none ∧
      (Get (kvBackend legalKey true) connectedService " k ".toList
        (Set (kvBackend legalKey true) connectedService " k ".toList "v".toList
          emptyWorld).2).1 =
        .error "malformed: key is too long or contains invalid characters") := by
  decide

/-- C8 (as amended): against a key-to-value store, on a connected service, when
`Set(key, value)` succeeds, a following `Get` of the trimmed key succeeds and
returns the trimmed value; so when neither the key nor the value has leading
or trailing white space, `Get` of the same key returns exactly the value
passed to `Set`. -/
theorem Get_after_Set_trimmed (legal : GoString → Bool) (up : Bool) (s : MemcachedService)
    (c : Client) (key value : GoString) (w : World Store) (hc : s.client = some c)
    (hs : (Set (kvBackend legal up) s key value w).1 = none) :
    Get (kvBackend legal up) s (TrimSpace key) (Set (kvBackend legal up) s key value w).2 =
      (.ok ⟨TrimSpace key, TrimSpace value⟩,
        ⟨(Set (kvBackend legal up) s key value w).2.srv,
          (Set (kvBackend legal up) s key value w).2.trace ++
            [Call.get c.server (TrimSpace key)]⟩) ∧
    (TrimSpace key = key → TrimSpace value = value →
      (Get (kvBackend legal up) s key (Set (kvBackend legal up) s key value w).2).1 =
        .ok ⟨key, value⟩) := by
  have main : Get (kvBackend legal up) s (TrimSpace key)
      (Set (kvBackend legal up) s key value w).2 =
      (.ok ⟨TrimSpace key, TrimSpace value⟩,
        ⟨(Set (kvBackend legal up) s key value w).2.srv,
          (Set (kvBackend legal up) s key value w).2.trace ++
            [Call.get c.server (TrimSpace key)]⟩) := by
    by_cases h1 : TrimSpace key = [] ∨ TrimSpace value = []
    · simp [MemcachedService.Set, hc, h1] at hs
    · by_cases h2 : 250 < byteLen (TrimSpace key)
      · simp [MemcachedService.Set, hc, h1, h2] at hs
      · have hk : TrimSpace key ≠ [] := fun h => h1 (Or.inl h)
        cases up with
        | false => simp [MemcachedService.Set, hc, h1, h2, kvBackend] at hs
        | true =>
          by_cases h3 : legal (TrimSpace key) = true
          · simp only [MemcachedService.Set, hc, if_neg h1, gt_iff_lt, if_neg h2, Get,
              if_neg hk, kvBackend, Bool.not_true, Bool.false_eq_true, if_false, h3, if_true,
              Store.find_put]
          · simp [MemcachedService.Set, hc, h1, h2, kvBackend, h3] at hs
  refine ⟨main, fun ek ev => ?_⟩
  rw [ek, ev] at main
  rw [main]

/-- C8 (as amended) at a concrete input: the key " k " and the value " v " on a
service connected to an empty key-to-value store. -/
theorem Get_after_Set_trimmed_witness :
    connectedService.client = some ⟨"localhost:11211".toList, 5⟩ ∧
    (Set (kvBackend legalKey true) connectedService " k ".toList " v ".toList emptyWorld).1 =
      none ∧
    (Get (kvBackend legalKey true) connectedService (TrimSpace " k ".toList)
      (Set (kvBackend legalKey true) connectedService " k ".toList " v ".toList
        emptyWorld).2).1 = .ok ⟨"k".toList, "v".toList⟩ :=
  ⟨rfl, by decide, by
    rw [(Get_after_Set_trimmed legalKey true connectedService ⟨"localhost:11211".toList, 5⟩
      " k ".toList " v ".toList emptyWorld rfl (by decide)).1]
    decide⟩

/-! ## `GetMultiple` -/

theorem getLoop_eq (B : Backend σ) (c : Client) (keys : List GoString) (items : List Item)
    (w : World σ) :
    getLoop B c keys items w =
      (items ++ found (fetchEach B c.server keys w.srv).1,
        ⟨(fetchEach B c.server keys w.srv).2, w.trace ++ keys.map (Call.get c.server)⟩) := by
  induction keys generalizing items w with
  | nil => simp [getLoop, fetchEach, found]
  | cons key keys ih =>
    cases h : (B.get c.server key w.srv).1 with
    | ok item => simp [getLoop, fetchEach, found, h, ih]
    | error e => simp [getLoop, fetchEach, found, h, ih]

theorem found_eq_nil_iff (answers : List (Except String Item)) :
    found answers = [] ↔ ∀ item, Except.ok item ∉ answers := by
  induction answers with
  | nil => simp [found]
  | cons a answers ih =>
    cases a with
    | ok item =>
      simp only [found, List.filterMap_cons, List.mem_cons, not_or]
      constructor
      · intro h; simp at h
      · intro h; exact absurd rfl (h item).1
    | error e =>
      simp only [found, List.filterMap_cons, List.mem_cons, not_or] at ih ⊢
      rw [ih]
      constructor
      · intro h item; exact ⟨by simp, h item⟩
      · intro h item; exact (h item).2

/-- C9: on a connected service, for a non-empty key list `GetMultiple` makes one
`Get` per key, in order, and returns the items of the fetches that succeeded,
in the order of the keys and one per occurrence; it returns "no items found"
if and only if no fetch succeeded.  For an empty key list it returns
"at least one key is required" and makes no call. -/
theorem GetMultiple_returns_found (B : Backend σ) (s : MemcachedService) (c : Client)
    (keys : List GoString) (w : World σ) (hc : s.client = some c) :
    (keys ≠ [] →
      (GetMultiple B s keys w).2 =
          ⟨(fetchEach B c.server keys w.srv).2, w.trace ++ keys.map (Call.get c.server)⟩ ∧
        (found (fetchEach B c.server keys w.srv).1 ≠ [] →
          (GetMultiple B s keys w).1 = .ok (found (fetchEach B c.server keys w.srv).1)) ∧
        ((GetMultiple B s keys w).1 = .error "no items found" ↔
          ∀ item, Except.ok item ∉ (fetchEach B c.server keys w.srv).1)) ∧
    (keys = [] → GetMultiple B s keys w = (.error "at least one key is required", w)) := by
  constructor
  · intro hk
    have hl : ¬ keys.length = 0 := by simpa using hk
    rw [← found_eq_nil_iff]
    by_cases hf : found (fetchEach B c.server keys w.srv).1 = []
    · simp [GetMultiple, hc, hl, getLoop_eq, hf]
    · simp [GetMultiple, hc, hl, getLoop_eq, hf]
  · intro hk
    simp [GetMultiple, hc, hk]

/-- C9 at a concrete input: the keys A and B against a store that holds only A;
the result is the single item A. -/
theorem GetMultiple_returns_found_witness :
    connectedService.client = some ⟨"localhost:11211".toList, 5⟩ ∧
    ["A".toList, "B".toList] ≠ [] ∧
    (GetMultiple (kvBackend legalKey true) connectedService ["A".toList, "B".toList]
      ⟨[("A".toList, "1".toList)], []⟩).1 = .ok [⟨"A".toList, "1".toList⟩] :=
  ⟨rfl, by decide, by
    rw [((GetMultiple_returns_found (kvBackend legalKey true) connectedService
      ⟨"localhost:11211".toList, 5⟩ ["A".toList, "B".toList]
      ⟨[("A".toList, "1".toList)], []⟩ rfl).1 (by decide)).2.1 (by decide)]
    decide⟩

/-! ## The first phase of `GetAllKeys` -/

theorem takeWhile_dropWhile_stop (p : Char → Bool) (a rest : GoString) (x : Char)
    (ha : ∀ c ∈ a, p c = true) (hx : p x = false) :
    (a ++ x :: rest).takeWhile p = a ∧ (a ++ x :: rest).dropWhile p = x :: rest := by
  induction a with
  | nil => simp [List.takeWhile_cons, List.dropWhile_cons, hx]
  | cons y a ih =>
    have hy : p y = true := ha y (by simp)
    have := ih (fun c hc => ha c (by simp [hc]))
    simp [List.takeWhile_cons, List.dropWhile_cons, hy, this]

theorem matchStatAt_append (t : GoString) :
    matchStatAt ("STAT items:".toList ++ t) =
      if t.takeWhile isDigit ≠ [] ∧ ":number".toList.isPrefixOf (t.dropWhile isDigit) = true
      then some (t.takeWhile isDigit) else none := by
  have h : "STAT items:".toList.isPrefixOf ("STAT items:".toList ++ t) = true := by
    rw [List.isPrefixOf_iff_prefix]; exact ⟨t, rfl⟩
  have hd : ("STAT items:".toList ++ t).drop "STAT items:".toList.length = t := rfl
  simp only [matchStatAt, h, if_true, hd]

theorem matchStatAt_iff (s ds : GoString) : matchStatAt s = some ds ↔ StatAt s [] ds := by
  constructor
  · intro h
    by_cases hp : "STAT items:".toList.isPrefixOf s = true
    · obtain ⟨t, rfl⟩ := List.isPrefixOf_iff_prefix.mp hp
      rw [matchStatAt_append] at h
      split at h
      · rename_i hc
        obtain ⟨post, hpost⟩ := List.isPrefixOf_iff_prefix.mp hc.2
        have e : t.takeWhile isDigit = ds := by simpa using h
        refine ⟨e ▸ hc.1, fun c hc => ?_, post, ?_⟩
        · rw [← e] at hc
          exact (List.mem_takeWhile_imp hc)
        · rw [← e, hpost, List.takeWhile_append_dropWhile, List.nil_append]
      · exact absurd h (by simp)
    · rw [matchStatAt, if_neg hp] at h
      exact absurd h (by simp)
  · rintro ⟨hne, hd, post, rfl⟩
    rw [List.nil_append, matchStatAt_append]
    have hs := takeWhile_dropWhile_stop isDigit ds ("number".toList ++ post) ':' hd (by decide)
    have e : ds ++ (":number".toList ++ post) = ds ++ ':' :: ("number".toList ++ post) := rfl
    have hp : ":number".toList.isPrefixOf (':' :: ("number".toList ++ post)) = true := by
      rw [List.isPrefixOf_iff_prefix]; exact ⟨post, rfl⟩
    rw [e, hs.1, hs.2, if_pos ⟨hne, hp⟩]

theorem StatAt_cons (c : Char) (s pre ds : GoString) (h : matchStatAt (c :: s) = none) :
    StatAt (c :: s) pre ds ↔ ∃ pre2, pre = c :: pre2 ∧ StatAt s pre2 ds := by
  constructor
  · intro hs
    cases pre with
    | nil =>
      rw [(matchStatAt_iff _ _).mpr hs] at h
      exact absurd h (by simp)
    | cons x pre2 =>
      obtain ⟨hne, hd, post, hpost⟩ := hs
      rw [List.cons_append] at hpost
      obtain ⟨rfl, e⟩ := List.cons_eq_cons.mp hpost
      exact ⟨pre2, rfl, hne, hd, post, e⟩
  · rintro ⟨pre2, rfl, hne, hd, post, rfl⟩
    exact ⟨hne, hd, post, rfl⟩

theorem StatAt_nil (pre ds : GoString) : ¬ StatAt [] pre ds := by
  rintro ⟨_, _, post, h⟩
  have := congrArg List.length h
  simp at this
  have h2 : "STAT items:".toList.length = 11 := rfl
  omega

theorem StatAt_unique (line pre ds ds2 : GoString) (h1 : StatAt line pre ds)
    (h2 : StatAt line pre ds2) : ds = ds2 := by
  induction pre generalizing line with
  | nil =>
    have e1 := (matchStatAt_iff _ _).mpr h1
    have e2 := (matchStatAt_iff _ _).mpr h2
    rw [e1] at e2
    exact Option.some.inj e2
  | cons x pre ih =>
    obtain ⟨hne, hd, post, rfl⟩ := h1
    obtain ⟨hne2, hd2, post2, e⟩ := h2
    rw [List.cons_append, List.cons_append] at e
    exact ih _ ⟨hne, hd, post, rfl⟩ ⟨hne2, hd2, post2, (List.cons_eq_cons.mp e).2⟩

theorem findStat_iff (line ds : GoString) : findStat line = some ds ↔ FirstStat line ds := by
  induction line with
  | nil =>
    simp only [findStat, FirstStat]
    constructor
    · intro h; exact absurd h (by simp)
    · rintro ⟨pre, h, _⟩; exact absurd h (StatAt_nil _ _)
  | cons c s ih =>
    cases hm : matchStatAt (c :: s) with
    | some d =>
      have h0 : StatAt (c :: s) [] d := (matchStatAt_iff _ _).mp hm
      simp only [findStat, hm]
      constructor
      · intro h
        have e : d = ds := by simpa using h
        exact ⟨[], e ▸ h0, fun _ _ _ => Nat.zero_le _⟩
      · rintro ⟨pre, h, hmin⟩
        have hl := hmin [] d h0
        have hp : pre = [] := List.eq_nil_of_length_eq_zero (Nat.le_zero.mp hl)
        rw [hp] at h
        rw [StatAt_unique _ _ _ _ h0 h]
    | none =>
      simp only [findStat, hm, ih, FirstStat]
      constructor
      · rintro ⟨pre, h, hmin⟩
        refine ⟨c :: pre, (StatAt_cons c s _ ds hm).mpr ⟨pre, rfl, h⟩, fun pre2 ds2 h2 => ?_⟩
        obtain ⟨pre3, rfl, h3⟩ := (StatAt_cons c s _ ds2 hm).mp h2
        have := hmin pre3 ds2 h3
        simp only [List.length_cons]
        omega
      · rintro ⟨pre, h, hmin⟩
        obtain ⟨pre2, rfl, h2⟩ := (StatAt_cons c s _ ds hm).mp h
        refine ⟨pre2, h2, fun pre3 ds3 h3 => ?_⟩
        have := hmin (c :: pre3) ds3 ((StatAt_cons c s _ ds3 hm).mpr ⟨pre3, rfl, h3⟩)
        simp only [List.length_cons] at this
        omega

theorem Atoi_digits (ds : GoString) (hne : ds ≠ []) (hd : ∀ c ∈ ds, isDigit c = true) :
    Atoi ds = if decimal ds < 2 ^ 63 then some (decimal ds : Int) else none := by
  cases ds with
  | nil => exact absurd rfl hne
  | cons c t =>
    have hc : isDigit c = true := hd c (by simp)
    have h1 : c ≠ '-' := by
      intro e; rw [e] at hc; exact absurd hc (by decide)
    have h2 : c ≠ '+' := by
      intro e; rw [e] at hc; exact absurd hc (by decide)
    have h3 : (c :: t).all isDigit = true := by
      rw [List.all_eq_true]; exact hd
    simp [Atoi, h1, h2, h3]

theorem mem_mapInsert (ids : List Int) (id n : Int) :
    n ∈ mapInsert ids id ↔ n ∈ ids ∨ n = id := by
  unfold mapInsert
  split
  · rename_i h
    constructor
    · exact Or.inl
    · rintro (h1 | rfl)
      · exact h1
      · exact h
  · simp

theorem nodup_mapInsert (ids : List Int) (id : Int) (h : ids.Nodup) :
    (mapInsert ids id).Nodup := by
  unfold mapInsert
  split
  · exact h
  · rename_i hn
    rw [List.nodup_append]
    exact ⟨h, List.nodup_singleton id, by
      intro a ha hb
      rw [List.mem_singleton] at hb
      exact hn (hb ▸ ha)⟩

theorem statsLoop_mem (lines : List GoString) (ids : List Int) (n : Int) :
    n ∈ (statsLoop lines ids).1 ↔
      n ∈ ids ∨ ∃ line ∈ beforeEnd lines, ∃ m, findStat line = some m ∧ Atoi m = some n := by
  induction lines generalizing ids with
  | nil => simp [statsLoop, beforeEnd]
  | cons line rest ih =>
    by_cases he : line = "END".toList
    · simp [statsLoop, beforeEnd, he]
    · have hne : (line != "END".toList) = true := by
        rw [bne_iff_ne]; exact he
      have hb : beforeEnd (line :: rest) = line :: beforeEnd rest := by
        simp only [beforeEnd, List.takeWhile_cons, hne, if_true]
      rw [hb]
      cases hf : findStat line with
      | none =>
        simp only [statsLoop, if_neg he, hf, ih, List.mem_cons, exists_eq_or_imp]
        simp
      | some m =>
        cases ha : Atoi m with
        | none =>
          simp only [statsLoop, if_neg he, hf, ha, ih, List.mem_cons, exists_eq_or_imp]
          simp [ha]
        | some id =>
          simp only [statsLoop, if_neg he, hf, ha, ih, List.mem_cons, exists_eq_or_imp,
            mem_mapInsert, Option.some.injEq, exists_eq_left', or_assoc]
          constructor
          · rintro (h | h | h)
            · exact Or.inl h
            · exact Or.inr (Or.inl h.symm)
            · exact Or.inr (Or.inr h)
          · rintro (h | h | h)
            · exact Or.inl h
            · exact Or.inr (Or.inl h.symm)
            · exact Or.inr (Or.inr h)

theorem statsLoop_nodup (lines : List GoString) (ids : List Int) (h : ids.Nodup) :
    (statsLoop lines ids).1.Nodup := by
  induction lines generalizing ids with
  | nil => exact h
  | cons line rest ih =>
    simp only [statsLoop]
    split
    · exact h
    · split
      · split
        · exact ih _ (nodup_mapInsert _ _ h)
        · exact ih _ h
      · exact ih _ h

/-- C10, the statement as written fails: a line of another per-class statistic,
`STAT items:5:number_hot 3`, records the identifier 5, and so does a line
with the pattern after other text, for the identifier 9. -/
theorem number_hot_line_records_identifier :
    (statsLoop ["STAT items:5:number_hot 3".toList, "END".toList] []).1 = [5] ∧
    (statsLoop ["xx STAT items:9:number 3".toList, "END".toList] []).1 = [9] := by
  decide

/-- C10 (as amended): the identifiers recorded by the first loop of `GetAllKeys`
are exactly the integers N below 2^63 such that some line read before the
first "END" line contains the text `STAT items:<N>:number`, N being the run
of decimal digits of the leftmost such text in the line; what stands before
or after that text is not examined.  Each identifier is recorded once. -/
theorem slab_ids_recorded (lines : List GoString) (n : Int) :
    (n ∈ (statsLoop lines []).1 ↔
      ∃ line ∈ beforeEnd lines, ∃ ds, FirstStat line ds ∧ decimal ds < 2 ^ 63 ∧
        n = (decimal ds : Int)) ∧
    (statsLoop lines []).1.Nodup := by
  refine ⟨?_, statsLoop_nodup lines [] List.nodup_nil⟩
  rw [statsLoop_mem]
  simp only [List.not_mem_nil, false_or]
  constructor
  · rintro ⟨line, hl, m, hf, ha⟩
    have hF := (findStat_iff line m).mp hf
    obtain ⟨pre, hs, _⟩ := hF
    rw [Atoi_digits m hs.1 hs.2.1] at ha
    split at ha
    · rename_i hlt
      exact ⟨line, hl, m, (findStat_iff line m).mp hf, hlt, by simpa using ha.symm⟩
    · exact absurd ha (by simp)
  · rintro ⟨line, hl, ds, hF, hlt, rfl⟩
    refine ⟨line, hl, ds, (findStat_iff line ds).mpr hF, ?_⟩
    obtain ⟨pre, hs, _⟩ := hF
    rw [Atoi_digits ds hs.1 hs.2.1, if_pos hlt]

/-! ## The second phase of `GetAllKeys`: the keys of one dump -/

theorem takeWhile_dropWhile_head (p : Char → Bool) (a post : GoString)
    (ha : ∀ c ∈ a, p c = true) (hp : ∀ c, post.head? = some c → p c = false) :
    (a ++ post).takeWhile p = a ∧ (a ++ post).dropWhile p = post := by
  cases post with
  | nil =>
    rw [List.append_nil]
    exact ⟨List.takeWhile_eq_self_iff.mpr ha, List.dropWhile_eq_nil_iff.mpr ha⟩
  | cons x rest => exact takeWhile_dropWhile_stop p a rest x ha (hp x rfl)

theorem head_dropWhile_stop (p : Char → Bool) (l : GoString) (c : Char)
    (h : (l.dropWhile p).head? = some c) : p c = false := by
  induction l with
  | nil => simp at h
  | cons a l ih =>
    by_cases ha : p a = true
    · rw [List.dropWhile_cons_of_pos ha] at h
      exact ih h
    · rw [List.dropWhile_cons_of_neg ha] at h
      have e : a = c := by simpa using h
      rw [← e]
      simpa using ha

theorem matchItemAt_append (t : GoString) :
    matchItemAt ("ITEM ".toList ++ t) =
      if t.takeWhile (fun c => !isReSpace c) ≠ [] then
        some (t.takeWhile (fun c => !isReSpace c))
      else none := by
  have h : "ITEM ".toList.isPrefixOf ("ITEM ".toList ++ t) = true := by
    rw [List.isPrefixOf_iff_prefix]; exact ⟨t, rfl⟩
  have hd : ("ITEM ".toList ++ t).drop "ITEM ".toList.length = t := rfl
  simp only [matchItemAt, h, if_true, hd]

theorem matchItemAt_iff (s k : GoString) : matchItemAt s = some k ↔ ItemAt s [] k := by
  constructor
  · intro h
    by_cases hp : "ITEM ".toList.isPrefixOf s = true
    · obtain ⟨t, rfl⟩ := List.isPrefixOf_iff_prefix.mp hp
      rw [matchItemAt_append] at h
      split at h
      · rename_i hne
        have e : t.takeWhile (fun c => !isReSpace c) = k := by simpa using h
        refine ⟨e ▸ hne, fun c hc => ?_, t.dropWhile (fun c => !isReSpace c), ?_, fun c hc => ?_⟩
        · rw [← e] at hc
          simpa using List.mem_takeWhile_imp hc
        · rw [← e, List.takeWhile_append_dropWhile, List.nil_append]
        · simpa using head_dropWhile_stop _ t c hc
      · exact absurd h (by simp)
    · rw [matchItemAt, if_neg hp] at h
      exact absurd h (by simp)
  · rintro ⟨hne, hk, post, rfl, hpost⟩
    rw [List.nil_append, matchItemAt_append]
    have hs := takeWhile_dropWhile_head (fun c => !isReSpace c) k post
      (fun c hc => by simp [hk c hc]) (fun c hc => by simp [hpost c hc])
    rw [hs.1, if_pos hne]

theorem ItemAt_cons (c : Char) (s pre k : GoString) (h : matchItemAt (c :: s) = none) :
    ItemAt (c :: s) pre k ↔ ∃ pre2, pre = c :: pre2 ∧ ItemAt s pre2 k := by
  constructor
  · intro hs
    cases pre with
    | nil =>
      rw [(matchItemAt_iff _ _).mpr hs] at h
      exact absurd h (by simp)
    | cons x pre2 =>
      obtain ⟨hne, hk, post, hline, hpost⟩ := hs
      rw [List.cons_append] at hline
      obtain ⟨rfl, e⟩ := List.cons_eq_cons.mp hline
      exact ⟨pre2, rfl, hne, hk, post, e, hpost⟩
  · rintro ⟨pre2, rfl, hne, hk, post, rfl, hpost⟩
    exact ⟨hne, hk, post, rfl, hpost⟩

theorem ItemAt_nil (pre k : GoString) : ¬ ItemAt [] pre k := by
  rintro ⟨_, _, post, h, _⟩
  have := congrArg List.length h
  simp at this
  have h2 : "ITEM ".toList.length = 5 := rfl
  omega

theorem ItemAt_unique (line pre k k2 : GoString) (h1 : ItemAt line pre k)
    (h2 : ItemAt line pre k2) : k = k2 := by
  induction pre generalizing line with
  | nil =>
    have e1 := (matchItemAt_iff _ _).mpr h1
    have e2 := (matchItemAt_iff _ _).mpr h2
    rw [e1] at e2
    exact Option.some.inj e2
  | cons x pre ih =>
    obtain ⟨hne, hk, post, rfl, hpost⟩ := h1
    obtain ⟨hne2, hk2, post2, e, hpost2⟩ := h2
    rw [List.cons_append, List.cons_append] at e
    exact ih _ ⟨hne, hk, post, rfl, hpost⟩ ⟨hne2, hk2, post2, (List.cons_eq_cons.mp e).2, hpost2⟩

theorem findItem_iff (line k : GoString) : findItem line = some k ↔ FirstItem line k := by
  induction line with
  | nil =>
    simp only [findItem, FirstItem]
    constructor
    · intro h; exact absurd h (by simp)
    · rintro ⟨pre, h, _⟩; exact absurd h (ItemAt_nil _ _)
  | cons c s ih =>
    cases hm : matchItemAt (c :: s) with
    | some d =>
      have h0 : ItemAt (c :: s) [] d := (matchItemAt_iff _ _).mp hm
      simp only [findItem, hm]
      constructor
      · intro h
        have e : d = k := by simpa using h
        exact ⟨[], e ▸ h0, fun _ _ _ => Nat.zero_le _⟩
      · rintro ⟨pre, h, hmin⟩
        have hl := hmin [] d h0
        have hp : pre = [] := List.eq_nil_of_length_eq_zero (Nat.le_zero.mp hl)
        rw [hp] at h
        rw [ItemAt_unique _ _ _ _ h0 h]
    | none =>
      simp only [findItem, hm, ih, FirstItem]
      constructor
      · rintro ⟨pre, h, hmin⟩
        refine ⟨c :: pre, (ItemAt_cons c s _ k hm).mpr ⟨pre, rfl, h⟩, fun pre2 k2 h2 => ?_⟩
        obtain ⟨pre3, rfl, h3⟩ := (ItemAt_cons c s _ k2 hm).mp h2
        have := hmin pre3 k2 h3
        simp only [List.length_cons]
        omega
      · rintro ⟨pre, h, hmin⟩
        obtain ⟨pre2, rfl, h2⟩ := (ItemAt_cons c s _ k hm).mp h
        refine ⟨pre2, h2, fun pre3 k3 h3 => ?_⟩
        have := hmin (c :: pre3) k3 ((ItemAt_cons c s _ k3 hm).mpr ⟨pre3, rfl, h3⟩)
        simp only [List.length_cons] at this
        omega

theorem findItem_none_iff (line : GoString) :
    findItem line = none ↔ ∀ pre k, ¬ ItemAt line pre k := by
  induction line with
  | nil => simp [findItem, ItemAt_nil]
  | cons c s ih =>
    cases hm : matchItemAt (c :: s) with
    | some d =>
      simp only [findItem, hm]
      constructor
      · intro h; exact absurd h (by simp)
      · intro h; exact absurd ((matchItemAt_iff _ _).mp hm) (h [] d)
    | none =>
      simp only [findItem, hm, ih]
      constructor
      · intro h pre k hk
        obtain ⟨pre2, _, h2⟩ := (ItemAt_cons c s pre k hm).mp hk
        exact h pre2 k h2
      · intro h pre k hk
        exact h (c :: pre) k ((ItemAt_cons c s _ k hm).mpr ⟨pre, rfl, hk⟩)

theorem dumpLoop_acc (lines keys : List GoString) :
    dumpLoop lines keys = (keys ++ (dumpLoop lines []).1, (dumpLoop lines []).2) := by
  induction lines generalizing keys with
  | nil => simp [dumpLoop]
  | cons line rest ih =>
    by_cases he : line = "END".toList
    · simp only [dumpLoop, if_pos he, List.append_nil]
    · cases hf : findItem line with
      | none =>
        simp only [dumpLoop, if_neg he, hf]
        exact ih keys
      | some k =>
        simp only [dumpLoop, if_neg he, hf, List.nil_append]
        rw [ih (keys ++ [k]), ih [k], List.append_assoc]

theorem dumpLoop_keys (lines : List GoString) :
    (dumpLoop lines []).1 = (beforeEnd lines).filterMap findItem := by
  induction lines with
  | nil => simp [dumpLoop, beforeEnd]
  | cons line rest ih =>
    by_cases he : line = "END".toList
    · have hb : beforeEnd (line :: rest) = [] := by
        have : (line != "END".toList) = false := by rw [he]; decide
        simp only [beforeEnd, List.takeWhile_cons, this, Bool.false_eq_true, if_false]
      rw [hb]
      simp only [dumpLoop, if_pos he, List.filterMap_nil]
    · have hne : (line != "END".toList) = true := by
        rw [bne_iff_ne]; exact he
      have hb : beforeEnd (line :: rest) = line :: beforeEnd rest := by
        simp only [beforeEnd, List.takeWhile_cons, hne, if_true]
      rw [hb]
      cases hf : findItem line with
      | none =>
        simp only [dumpLoop, if_neg he, hf, List.filterMap_cons]
        exact ih
      | some k =>
        simp only [dumpLoop, if_neg he, hf, List.filterMap_cons, List.nil_append]
        rw [dumpLoop_acc, ih]
        rfl

/-- C11, the statement as written fails: a line that does not have the form
`ITEM <key> ...`, the text standing after other text, contributes a key; and
in a line of that form the key does not stop at a vertical tab, which is
white space but not in the class `\s` of the regexp. -/
theorem embedded_ITEM_line_contributes_key :
    (dumpLoop ["xx ITEM foo [1 b; 0 s]".toList, "END".toList] []).1 = ["foo".toList] ∧
    (dumpLoop ["ITEM a\x0bb [1 b; 0 s]".toList, "END".toList] []).1 = ["a\x0bb".toList] := by
  decide

/-- C11 (as amended): the inner loop of `GetAllKeys` appends, in the order the
lines are read, one key for each line read before the first "END" line in
which the text `ITEM ` followed by a character outside the class `\s` (space,
tab, line feed, form feed, carriage return) occurs, and nothing for the other
lines; the key is the longest run of such characters at the leftmost
occurrence.  So a line of the form `ITEM <key> ...` contributes exactly
`<key>`, and a line in which the text does not occur contributes nothing. -/
theorem dump_keys_extracted (lines keys : List GoString) (line k post : GoString) :
    (dumpLoop lines keys).1 = keys ++ (beforeEnd lines).filterMap findItem ∧
    (findItem line = some k ↔ FirstItem line k) ∧
    (findItem line = none ↔ ∀ pre k2, ¬ ItemAt line pre k2) ∧
    (k ≠ [] → (∀ c ∈ k, isReSpace c = false) →
      (∀ c, post.head? = some c → isReSpace c = true) →
      findItem ("ITEM ".toList ++ (k ++ post)) = some k) := by
  refine ⟨?_, findItem_iff line k, findItem_none_iff line, fun hne hk hpost => ?_⟩
  · rw [dumpLoop_acc, dumpLoop_keys]
  · have h : matchItemAt ("ITEM ".toList ++ (k ++ post)) = some k :=
      (matchItemAt_iff _ _).mpr ⟨hne, hk, post, rfl, hpost⟩
    show findItem ('I' :: ("TEM ".toList ++ (k ++ post))) = some k
    rw [findItem]
    have h2 : matchItemAt ('I' :: ("TEM ".toList ++ (k ++ post))) = some k := h
    rw [h2]

/-- C11 (as amended) at a concrete dump: two item lines, a line that is not an item, the
terminator, and a line after it that is not read. -/
theorem dump_keys_extracted_witness :
    "foo".toList ≠ [] ∧ (∀ c ∈ "foo".toList, isReSpace c = false) ∧
    (∀ c, " [1 b; 0 s]".toList.head? = some c → isReSpace c = true) ∧
    findItem ("ITEM ".toList ++ ("foo".toList ++ " [1 b; 0 s]".toList)) = some "foo".toList ∧
    (dumpLoop ["ITEM foo [1 b; 0 s]".toList, "STAT x".toList, "ITEM bar [2 b; 0 s]".toList,
      "END".toList, "ITEM baz [1 b; 0 s]".toList] []).1 = ["foo".toList, "bar".toList] :=
  ⟨by decide, by decide, by decide,
    (dump_keys_extracted [] [] [] "foo".toList " [1 b; 0 s]".toList).2.2.2
      (by decide) (by decide) (by decide),
    by decide⟩

/-! ## `GetAllKeys` as a whole -/

theorem scanWith_dumpLoop_acc (sc : Scanner) (keys : List GoString) :
    scanWith dumpLoop sc keys =
      (keys ++ (scanWith dumpLoop sc []).1, (scanWith dumpLoop sc []).2) := by
  unfold scanWith
  split
  · simp
  · exact dumpLoop_acc _ _

theorem slabLoop_eq (B : Backend σ) (addr : GoString) (ids : List Int) (sc : Scanner)
    (keys : List GoString) (w : World σ) :
    (slabLoop B addr ids sc keys w).1 = keys ++ (classDumps B addr ids sc w.srv).flatten ∧
    (slabLoop B addr ids sc keys w).2.2.trace =
      w.trace ++ ids.map (fun id => Call.write addr (cachedumpCmd id)) := by
  induction ids generalizing sc keys w with
  | nil => simp [slabLoop, classDumps]
  | cons id ids ih =>
    simp only [slabLoop, classDumps, List.flatten_cons, List.map_cons]
    rw [scanWith_dumpLoop_acc]
    constructor
    · rw [(ih _ _ _).1, List.append_assoc]
    · rw [(ih _ _ _).2, List.append_assoc]
      rfl

theorem GetAllKeys_of_dialed (B : Backend σ) (s : MemcachedService) (c : Client)
    (w : World σ) (hc : s.client = some c) (hd : (B.dial s.host w.srv).1 = none) :
    (GetAllKeys B s w).1 =
      .ok (classDumps B s.host (visited B s w) (statsLoop (statsReply B s w).1 []).2
        (statsReply B s w).2).flatten ∧
    (GetAllKeys B s w).2.trace =
      w.trace ++ [Call.dial s.host, Call.write s.host "stats items\r\n".toList] ++
        (visited B s w).map (fun id => Call.write s.host (cachedumpCmd id)) ++
        [Call.close s.host] := by
  have e : scanWith statsLoop ⟨(statsReply B s w).1, false⟩ [] =
      statsLoop (statsReply B s w).1 [] := by
    simp [scanWith]
  simp only [GetAllKeys, hc, hd]
  rw [show B.write s.host "stats items\r\n".toList (B.dial s.host w.srv).2 = statsReply B s w
    from rfl, e]
  constructor
  · rw [(slabLoop_eq _ _ _ _ _ _).1]
    rfl
  · rw [(slabLoop_eq _ _ _ _ _ _).2]
    rfl

theorem discovered_nodup (B : Backend σ) (s : MemcachedService) (w : World σ) :
    (discovered B s w).Nodup :=
  statsLoop_nodup _ [] List.nodup_nil

theorem classDumps_length (B : Backend σ) (addr : GoString) (ids : List Int) (sc : Scanner)
    (st : σ) : (classDumps B addr ids sc st).length = ids.length := by
  induction ids generalizing sc st with
  | nil => rfl
  | cons id ids ih => simp [classDumps, ih]

/-- C12: on a connected service whose server can be dialled, `GetAllKeys`
writes one "stats cachedump <id> 0" command for each identifier recorded by
the first phase, each identifier once, and returns, with no error, the
concatenation of the key lists read for the classes in the order they are
visited; its length is the sum of the lengths of these lists, a key reported
twice being kept twice. -/
theorem GetAllKeys_concatenates_classes (B : Backend σ) (s : MemcachedService) (c : Client)
    (w : World σ) (hc : s.client = some c) (hd : (B.dial s.host w.srv).1 = none)
    (hr : RangesOverKeys B) :
    (GetAllKeys B s w).1 =
      .ok (classDumps B s.host (visited B s w) (statsLoop (statsReply B s w).1 []).2
        (statsReply B s w).2).flatten ∧
    (GetAllKeys B s w).2.trace =
      w.trace ++ [Call.dial s.host, Call.write s.host "stats items\r\n".toList] ++
        (visited B s w).map (fun id => Call.write s.host (cachedumpCmd id)) ++
        [Call.close s.host] ∧
    (visited B s w).Nodup ∧ (∀ id, id ∈ visited B s w ↔ id ∈ discovered B s w) ∧
    (classDumps B s.host (visited B s w) (statsLoop (statsReply B s w).1 []).2
      (statsReply B s w).2).length = (discovered B s w).length ∧
    (classDumps B s.host (visited B s w) (statsLoop (statsReply B s w).1 []).2
      (statsReply B s w).2).flatten.length =
      ((classDumps B s.host (visited B s w) (statsLoop (statsReply B s w).1 []).2
        (statsReply B s w).2).map List.length).sum := by
  have hp : (visited B s w).Perm (discovered B s w) := hr _
  have h := GetAllKeys_of_dialed B s c w hc hd
  refine ⟨h.1, h.2, hp.nodup_iff.mpr (discovered_nodup B s w), fun id => hp.mem_iff, ?_,
    List.length_flatten _⟩
  rw [classDumps_length, hp.length_eq]

/-- C12 at a concrete server with two storage classes, the key `a` being
reported by both: three keys come back, `a` twice, after one dump command
per class. -/
theorem GetAllKeys_concatenates_classes_witness :
    connectedService.client = some ⟨"localhost:11211".toList, 5⟩ ∧
    ((scriptBackend twoClasses).dial connectedService.host unitWorld.srv).1 = none ∧
    RangesOverKeys (scriptBackend twoClasses) ∧
    GetAllKeys (scriptBackend twoClasses) connectedService unitWorld =
      (.ok ["a".toList, "a".toList, "b".toList],
        ⟨(), [Call.dial "localhost:11211".toList,
          Call.write "localhost:11211".toList "stats items\r\n".toList,
          Call.write "localhost:11211".toList "stats cachedump 1 0\r\n".toList,
          Call.write "localhost:11211".toList "stats cachedump 2 0\r\n".toList,
          Call.close "localhost:11211".toList]⟩) :=
  ⟨rfl, rfl, fun ids => List.Perm.refl ids, by
    have h := GetAllKeys_concatenates_classes (scriptBackend twoClasses) connectedService
      ⟨"localhost:11211".toList, 5⟩ unitWorld rfl rfl (fun ids => List.Perm.refl ids)
    have h1 : (GetAllKeys (scriptBackend twoClasses) connectedService unitWorld).1 =
        .ok ["a".toList, "a".toList, "b".toList] := h.1.trans (by decide)
    have h2 : (GetAllKeys (scriptBackend twoClasses) connectedService unitWorld).2.trace =
        [Call.dial "localhost:11211".toList,
          Call.write "localhost:11211".toList "stats items\r\n".toList,
          Call.write "localhost:11211".toList "stats cachedump 1 0\r\n".toList,
          Call.write "localhost:11211".toList "stats cachedump 2 0\r\n".toList,
          Call.close "localhost:11211".toList] := h.2.1.trans (by decide)
    exact Prod.ext h1 (by
      cases hw : (GetAllKeys (scriptBackend twoClasses) connectedService unitWorld).2
      rw [hw] at h2
      simp only at h2
      rw [h2])⟩

/-- C13, the code at a failing input: the dump of the only storage class
breaks off after its first item, with no "END" line, and `GetAllKeys` returns
the key read so far with a nil error. -/
theorem GetAllKeys_returns_partial_keys :
    GetAllKeys (scriptBackend brokenDump) connectedService unitWorld =
      (.ok ["a".toList],
        ⟨(), [Call.dial "localhost:11211".toList,
          Call.write "localhost:11211".toList "stats items\r\n".toList,
          Call.write "localhost:11211".toList "stats cachedump 1 0\r\n".toList,
          Call.close "localhost:11211".toList]⟩) := by
  decide

theorem discovered_eq_nil (B : Backend σ) (s : MemcachedService) (w : World σ)
    (h0 : ∀ line ∈ beforeEnd (statsReply B s w).1, ∀ ds, ¬ FirstStat line ds) :
    discovered B s w = [] := by
  rw [List.eq_nil_iff_forall_not_mem]
  intro n hn
  rw [discovered, statsLoop_mem] at hn
  rcases hn with hn | ⟨line, hl, m, hf, _⟩
  · simp at hn
  · exact h0 line hl m ((findStat_iff line m).mp hf)

/-- C14: on a connected service whose server can be dialled and whose answer
to "stats items" has no storage-class line before "END", `GetAllKeys` returns
the empty key list with no error; the only command written is "stats items". -/
theorem GetAllKeys_empty_cache (B : Backend σ) (s : MemcachedService) (c : Client)
    (w : World σ) (hc : s.client = some c) (hd : (B.dial s.host w.srv).1 = none)
    (hr : RangesOverKeys B)
    (h0 : ∀ line ∈ beforeEnd (statsReply B s w).1, ∀ ds, ¬ FirstStat line ds) :
    GetAllKeys B s w =
      (.ok [], ⟨(statsReply B s w).2,
        w.trace ++ [Call.dial s.host, Call.write s.host "stats items\r\n".toList,
          Call.close s.host]⟩) := by
  have hv : B.rangeOrder (discovered B s w) = [] := by
    have hp := hr (discovered B s w)
    rw [discovered_eq_nil B s w h0] at hp ⊢
    exact hp.eq_nil
  have e : scanWith statsLoop ⟨(statsReply B s w).1, false⟩ [] =
      statsLoop (statsReply B s w).1 [] := by
    simp [scanWith]
  simp only [GetAllKeys, hc, hd]
  rw [show B.write s.host "stats items\r\n".toList (B.dial s.host w.srv).2 = statsReply B s w
    from rfl, e]
  rw [show B.rangeOrder (statsLoop (statsReply B s w).1 []).1 = [] from hv]
  simp [slabLoop]

/-- C14 at a concrete server: the key-to-value store with nothing in it. -/
theorem GetAllKeys_empty_cache_witness :
    connectedService.client = some ⟨"localhost:11211".toList, 5⟩ ∧
    ((kvBackend legalKey true).dial connectedService.host emptyWorld.srv).1 = none ∧
    RangesOverKeys (kvBackend legalKey true) ∧
    (∀ line ∈ beforeEnd (statsReply (kvBackend legalKey true) connectedService emptyWorld).1,
      ∀ ds, ¬ FirstStat line ds) ∧
    GetAllKeys (kvBackend legalKey true) connectedService emptyWorld =
      (.ok [], ⟨[], [Call.dial "localhost:11211".toList,
        Call.write "localhost:11211".toList "stats items\r\n".toList,
        Call.close "localhost:11211".toList]⟩) :=
  have hb : beforeEnd (statsReply (kvBackend legalKey true) connectedService emptyWorld).1 = [] := by
    decide
  have h0 : ∀ line ∈ beforeEnd (statsReply (kvBackend legalKey true) connectedService
      emptyWorld).1, ∀ ds, ¬ FirstStat line ds := by
    intro line hl
    rw [hb] at hl
    exact absurd hl (List.not_mem_nil line)
  ⟨rfl, rfl, fun ids => List.Perm.refl ids, h0,
    (GetAllKeys_empty_cache (kvBackend legalKey true) connectedService
      ⟨"localhost:11211".toList, 5⟩ emptyWorld rfl rfl (fun ids => List.Perm.refl ids) h0).trans
      (by decide)⟩

theorem statsLoop_terminated (body : List GoString) (ids : List Int)
    (h : "END".toList ∉ body) :
    (statsLoop (body ++ ["END".toList]) ids).2 = ⟨[], false⟩ := by
  induction body generalizing ids with
  | nil => simp [statsLoop]
  | cons line rest ih =>
    have hne : line ≠ "END".toList := fun e => h (e ▸ List.mem_cons_self _ _)
    have hr : "END".toList ∉ rest := fun e => h (List.mem_cons_of_mem _ e)
    simp only [List.cons_append, statsLoop, if_neg hne]
    split
    · split
      · exact ih _ hr
      · exact ih _ hr
    · exact ih _ hr

theorem dumpLoop_terminated (body keys : List GoString) (h : "END".toList ∉ body) :
    (dumpLoop (body ++ ["END".toList]) keys).2 = ⟨[], false⟩ := by
  induction body generalizing keys with
  | nil => simp [dumpLoop]
  | cons line rest ih =>
    have hne : line ≠ "END".toList := fun e => h (e ▸ List.mem_cons_self _ _)
    have hr : "END".toList ∉ rest := fun e => h (List.mem_cons_of_mem _ e)
    simp only [List.cons_append, dumpLoop, if_neg hne]
    split
    · exact ih _ hr
    · exact ih _ hr

theorem classDumps_terminated (B : Backend σ) (addr : GoString) (ids : List Int) (st : σ)
    (he : EndTerminated B) :
    classDumps B addr ids ⟨[], false⟩ st =
      (dumpReplies B addr ids st).map (fun reply => (beforeEnd reply).filterMap findItem) := by
  induction ids generalizing st with
  | nil => rfl
  | cons id ids ih =>
    obtain ⟨body, hb, hn⟩ := he addr (cachedumpCmd id) st (Or.inr ⟨id, rfl⟩)
    have e1 : scanWith dumpLoop ⟨[] ++ (B.write addr (cachedumpCmd id) st).1, false⟩ [] =
        dumpLoop (B.write addr (cachedumpCmd id) st).1 [] := by
      simp [scanWith]
    have e2 : (dumpLoop (B.write addr (cachedumpCmd id) st).1 []).2 = ⟨[], false⟩ := by
      rw [hb]; exact dumpLoop_terminated body [] hn
    simp only [classDumps, dumpReplies, List.map_cons]
    rw [e1, e2, ih, dumpLoop_keys]

/-- C20: when every answer of the server ends with its "END" line, the "END"
of the stats-items answer does not end the enumeration, a dump command is
written for every class visited, and the "END" of one class's dump ends that
dump only: the result is the concatenation, over all the classes visited, of
the keys of the lines of each class's answer before its "END", so every key
reported for a later class is in the result. -/
theorem END_ends_only_its_phase (B : Backend σ) (s : MemcachedService) (c : Client)
    (w : World σ) (hc : s.client = some c) (hd : (B.dial s.host w.srv).1 = none)
    (he : EndTerminated B) :
    (GetAllKeys B s w).1 =
      .ok ((dumpReplies B s.host (visited B s w) (statsReply B s w).2).map
        (fun reply => (beforeEnd reply).filterMap findItem)).flatten ∧
    (GetAllKeys B s w).2.trace =
      w.trace ++ [Call.dial s.host, Call.write s.host "stats items\r\n".toList] ++
        (visited B s w).map (fun id => Call.write s.host (cachedumpCmd id)) ++
        [Call.close s.host] ∧
    (∀ reply ∈ dumpReplies B s.host (visited B s w) (statsReply B s w).2,
      ∀ line ∈ beforeEnd reply, ∀ k, FirstItem line k →
        ∃ keys, (GetAllKeys B s w).1 = .ok keys ∧ k ∈ keys) := by
  have h := GetAllKeys_of_dialed B s c w hc hd
  obtain ⟨body, hb, hn⟩ :=
    he s.host "stats items\r\n".toList (B.dial s.host w.srv).2 (Or.inl rfl)
  have e : (statsLoop (statsReply B s w).1 []).2 = ⟨[], false⟩ := by
    rw [statsReply, hb]; exact statsLoop_terminated body [] hn
  have h1 : (GetAllKeys B s w).1 =
      .ok ((dumpReplies B s.host (visited B s w) (statsReply B s w).2).map
        (fun reply => (beforeEnd reply).filterMap findItem)).flatten := by
    rw [h.1, e, classDumps_terminated B _ _ _ he]
  refine ⟨h1, h.2, fun reply hr line hl k hk => ⟨_, h1, ?_⟩⟩
  rw [List.mem_flatten]
  refine ⟨(beforeEnd reply).filterMap findItem, List.mem_map.mpr ⟨reply, hr, rfl⟩, ?_⟩
  rw [List.mem_filterMap]
  exact ⟨line, hl, (findItem_iff line k).mpr hk⟩

theorem twoClasses_terminated : EndTerminated (scriptBackend twoClasses) := by
  intro addr cmd st _
  simp only [scriptBackend, twoClasses]
  split
  · exact ⟨["STAT items:1:number 1".toList, "STAT items:2:number 2".toList], rfl, by decide⟩
  · split
    · exact ⟨["ITEM a [1 b; 0 s]".toList], rfl, by decide⟩
    · split
      · exact ⟨["ITEM a [1 b; 0 s]".toList, "ITEM b [1 b; 0 s]".toList], rfl, by decide⟩
      · exact ⟨[], rfl, by decide⟩

/-- C20 at a concrete server with two storage classes: the keys of class 2
are in the result although the answers for "stats items" and for class 1
each ended with "END". -/
theorem END_ends_only_its_phase_witness :
    connectedService.client = some ⟨"localhost:11211".toList, 5⟩ ∧
    ((scriptBackend twoClasses).dial connectedService.host unitWorld.srv).1 = none ∧
    EndTerminated (scriptBackend twoClasses) ∧
    (GetAllKeys (scriptBackend twoClasses) connectedService unitWorld).1 =
      .ok ["a".toList, "a".toList, "b".toList] :=
  ⟨rfl, rfl, twoClasses_terminated,
    (END_ends_only_its_phase (scriptBackend twoClasses) connectedService
      ⟨"localhost:11211".toList, 5⟩ unitWorld rfl rfl twoClasses_terminated).1.trans
      (by decide)⟩

/-! ## `Connect`: failed probes and blank addresses -/

/-- C15: for every service state and every address that passes the address
checks, a `Connect` whose probe fails returns the probe error and leaves the
service with the newly resolved address as host and a new client for that
address; nothing of the previous host and client is kept. -/
theorem failed_Connect_replaces_state (B : Backend σ) (s : MemcachedService)
    (url : GoString) (w : World σ) (hv : validAddress url)
    (hp : (B.ping (resolve (TrimSpace url)) w.srv).1 ≠ none) :
    (Connect B s url w).1 = (B.ping (resolve (TrimSpace url)) w.srv).1 ∧
    (Connect B s url w).1 ≠ none ∧
    (Connect B s url w).2.1 =
      ⟨some ⟨resolve (TrimSpace url), 5⟩, resolve (TrimSpace url)⟩ := by
  rw [Connect_of_valid B s url w hv.1 hv.2]
  exact ⟨rfl, hp, rfl⟩

/-- C15 at a concrete input: a service holding a client for localhost:11211
is asked to connect to "cache:11300", which cannot be reached. -/
theorem failed_Connect_replaces_state_witness :
    validAddress "cache:11300".toList ∧
    ((kvBackend legalKey false).ping (resolve (TrimSpace "cache:11300".toList))
      emptyWorld.srv).1 ≠ none ∧
    (Connect (kvBackend legalKey false) connectedService "cache:11300".toList emptyWorld).1 =
      some unreachable ∧
    (Connect (kvBackend legalKey false) connectedService "cache:11300".toList emptyWorld).2.1 =
      ⟨some ⟨"cache:11300".toList, 5⟩, "cache:11300".toList⟩ :=
  ⟨by decide, by decide,
    (failed_Connect_replaces_state (kvBackend legalKey false) connectedService
      "cache:11300".toList emptyWorld (by decide) (by decide)).1.trans (by decide),
    (failed_Connect_replaces_state (kvBackend legalKey false) connectedService
      "cache:11300".toList emptyWorld (by decide) (by decide)).2.2.trans (by decide)⟩

theorem TrimSpace_of_all_space (url : GoString) (h : ∀ c ∈ url, isSpace c = true) :
    TrimSpace url = [] := by
  have h1 : trimLeft url = [] := List.dropWhile_eq_nil_iff.mpr h
  rw [TrimSpace, h1]
  rfl

theorem Connect_of_blank (B : Backend σ) (s : MemcachedService) (url : GoString)
    (w : World σ) (h : ∀ c ∈ url, isSpace c = true) :
    Connect B s url w = (some "URL is required", s, w) := by
  simp only [Connect, TrimSpace_of_all_space url h, if_true]

theorem Connect_of_scheme (B : Backend σ) (s : MemcachedService) (url : GoString)
    (w : World σ) (h : Contains url "://".toList = true) :
    Connect B s url w = (some "invalid URL format", s, w) := by
  have hi := infix_TrimSpace_scheme url ((Contains_iff _ _).mp h)
  have hc := (Contains_iff _ _).mpr hi
  have hne : TrimSpace url ≠ [] := by
    intro he
    rw [he] at hc
    exact absurd hc (by decide)
  simp only [Connect, if_neg hne, hc, if_true]

/-- C16: for every address that is empty or made of white space only, in
every service state, `Connect` returns "URL is required"; the service (host
and client) and the world (server state and trace of calls) are unchanged. -/
theorem Connect_rejects_blank (B : Backend σ) (s : MemcachedService) (url : GoString)
    (w : World σ) (h : ∀ c ∈ url, isSpace c = true) :
    Connect B s url w = (some "URL is required", s, w) :=
  Connect_of_blank B s url w h

/-- C16 at a concrete input: a tab and two spaces, on a connected service. -/
theorem Connect_rejects_blank_witness :
    (∀ c ∈ "\t  ".toList, isSpace c = true) ∧
    Connect (kvBackend legalKey true) connectedService "\t  ".toList emptyWorld =
      (some "URL is required", connectedService, emptyWorld) :=
  ⟨by decide, Connect_rejects_blank (kvBackend legalKey true) connectedService
    "\t  ".toList emptyWorld (by decide)⟩

/-! ## `Get` and `Delete` -/

theorem legalKey_of_low_char (key : GoString) (h : ∃ ch ∈ key, ch.toNat ≤ 0x20) :
    legalKey key = false := by
  obtain ⟨ch, hm, hle⟩ := h
  have h1 : key.all (fun c => decide (0x20 < c.toNat) && c.toNat != 0x7f) = false := by
    rw [Bool.eq_false_iff, Ne, List.all_eq_true]
    intro hall
    have := hall ch hm
    simp only [Bool.and_eq_true, decide_eq_true_eq] at this
    omega
  simp [legalKey, h1]

/-- C17, the statement as written fails: against a store that holds the key k,
`Get` of the key made of one space returns neither an item nor a not-found
error but the malformed-key error of the client library, and `Delete` of the
padded key " k" returns that error too, the item under k staying in the
store. -/
theorem Get_Delete_blank_key_refused :
    Get (kvBackend legalKey true) connectedService " ".toList
        ⟨[("k".toList, "v".toList)], []⟩ =
      (.error "malformed: key is too long or contains invalid characters",
        ⟨[("k".toList, "v".toList)], [Call.get "localhost:11211".toList " ".toList]⟩) ∧
    Delete (kvBackend legalKey true) connectedService " k".toList
        ⟨[("k".toList, "v".toList)], []⟩ =
      (some "malformed: key is too long or contains invalid characters",
        ⟨[("k".toList, "v".toList)], [Call.delete "localhost:11211".toList " k".toList]⟩) := by
  decide

/-- C17 (as amended): on a connected service `Get` and `Delete` return
"key is required" for the empty key and make no call; every other key, white
space included, is passed unchanged to the client library in one call, whose
outcome and resulting server state are what is returned.  Against the
key-to-value store, for a key that passes the library's key check the outcome
is the stored item or the miss for `Get`, and the removal or the miss for
`Delete`; for a key that fails it, as every key with a space, a tab or
another character up to U+0020 does, the outcome is the library's
malformed-key error and the store is untouched. -/
theorem Get_Delete_reject_only_empty_key (B : Backend σ) (s : MemcachedService)
    (c : Client) (key : GoString) (w : World σ) (w2 : World Store)
    (hc : s.client = some c) :
    Get B s [] w = (.error "key is required", w) ∧
    Delete B s [] w = (some "key is required", w) ∧
    (key ≠ [] →
      Get B s key w =
          ((B.get c.server key w.srv).1,
            ⟨(B.get c.server key w.srv).2, w.trace ++ [Call.get c.server key]⟩) ∧
        Delete B s key w =
          ((B.delete c.server key w.srv).1,
            ⟨(B.delete c.server key w.srv).2, w.trace ++ [Call.delete c.server key]⟩)) ∧
    (key ≠ [] → legalKey key = true →
      (∀ v, w2.srv.find key = some v →
        Get (kvBackend legalKey true) s key w2 =
            (.ok ⟨key, v⟩, ⟨w2.srv, w2.trace ++ [Call.get c.server key]⟩) ∧
          Delete (kvBackend legalKey true) s key w2 =
            (none, ⟨w2.srv.filter (fun kv => kv.1 ≠ key),
              w2.trace ++ [Call.delete c.server key]⟩)) ∧
      (w2.srv.find key = none →
        Get (kvBackend legalKey true) s key w2 =
            (.error "memcache: cache miss", ⟨w2.srv, w2.trace ++ [Call.get c.server key]⟩) ∧
          Delete (kvBackend legalKey true) s key w2 =
            (some "memcache: cache miss",
              ⟨w2.srv, w2.trace ++ [Call.delete c.server key]⟩))) ∧
    (key ≠ [] → legalKey key = false →
      Get (kvBackend legalKey true) s key w2 =
          (.error "malformed: key is too long or contains invalid characters",
            ⟨w2.srv, w2.trace ++ [Call.get c.server key]⟩) ∧
        Delete (kvBackend legalKey true) s key w2 =
          (some "malformed: key is too long or contains invalid characters",
            ⟨w2.srv, w2.trace ++ [Call.delete c.server key]⟩)) ∧
    ((∃ ch ∈ key, ch.toNat ≤ 0x20) → legalKey key = false) := by
  refine ⟨by simp [Get, hc], by simp [Delete, hc], fun hk => ?_, fun hk hl => ⟨fun v hv => ?_,
    fun hn => ?_⟩, fun hk hl => ?_, legalKey_of_low_char key⟩
  · simp only [Get, Delete, hc, if_neg hk, and_self]
  · simp [Get, Delete, hc, hk, kvBackend, hl, hv]
  · simp [Get, Delete, hc, hk, kvBackend, hl, hn]
  · simp [Get, Delete, hc, hk, kvBackend, hl]

/-- C17 (as amended) at concrete inputs, against a store holding the key k:
`Get` of k returns the item, `Delete` of an absent key returns the miss, and
the key made of one space is passed on as it is and refused by the client
library. -/
theorem Get_Delete_reject_only_empty_key_witness :
    connectedService.client = some ⟨"localhost:11211".toList, 5⟩ ∧
    " ".toList ≠ [] ∧ legalKey " ".toList = false ∧
    Get (kvBackend legalKey true) connectedService "k".toList
        ⟨[("k".toList, "v".toList)], []⟩ =
      (.ok ⟨"k".toList, "v".toList⟩,
        ⟨[("k".toList, "v".toList)], [Call.get "localhost:11211".toList "k".toList]⟩) ∧
    Delete (kvBackend legalKey true) connectedService "z".toList
        ⟨[("k".toList, "v".toList)], []⟩ =
      (some "memcache: cache miss",
        ⟨[("k".toList, "v".toList)], [Call.delete "localhost:11211".toList "z".toList]⟩) ∧
    Get (kvBackend legalKey true) connectedService " ".toList
        ⟨[("k".toList, "v".toList)], []⟩ =
      (.error "malformed: key is too long or contains invalid characters",
        ⟨[("k".toList, "v".toList)], [Call.get "localhost:11211".toList " ".toList]⟩) :=
  ⟨rfl, by decide, by decide,
    ((Get_Delete_reject_only_empty_key (kvBackend legalKey true) connectedService
      ⟨"localhost:11211".toList, 5⟩ "k".toList ⟨[("k".toList, "v".toList)], []⟩
      ⟨[("k".toList, "v".toList)], []⟩ rfl).2.2.1 (by decide)).1.trans (by decide),
    ((Get_Delete_reject_only_empty_key (kvBackend legalKey true) connectedService
      ⟨"localhost:11211".toList, 5⟩ "z".toList ⟨[("k".toList, "v".toList)], []⟩
      ⟨[("k".toList, "v".toList)], []⟩ rfl).2.2.1 (by decide)).2.trans (by decide),
    ((Get_Delete_reject_only_empty_key (kvBackend legalKey true) connectedService
      ⟨"localhost:11211".toList, 5⟩ " ".toList ⟨[("k".toList, "v".toList)], []⟩
      ⟨[("k".toList, "v".toList)], []⟩ rfl).2.2.2.2.1 (by decide) (by decide)).1⟩

/-! ## The error strings of the request handlers -/

open Handler

/-- C18: when the service has no client, every handler given a request it can
bind answers with success false and the not-connected message of the
service after its own fixed text: "Error saving: ", "Item not found: ",
nothing for getMultiple, "Error deleting: ", "Error flushing cache: ",
"Error listing keys: "; no call is made. -/
theorem handlers_not_connected (B : Backend σ) (s : MemcachedService)
    (req : models.ItemRequest) (w : World σ) (h : s.client = none) :
    HandleSet B s (some req) w =
      (⟨500, ⟨false, "", "Error saving: not connected to Memcached", []⟩⟩, w) ∧
    HandleGet B s (some req) w =
      (⟨404, ⟨false, "", "Item not found: not connected to Memcached", []⟩⟩, w) ∧
    HandleGetMultiple B s (some req) w =
      (⟨404, ⟨false, "", "not connected to Memcached", []⟩⟩, w) ∧
    HandleDelete B s (some req) w =
      (⟨500, ⟨false, "", "Error deleting: not connected to Memcached", []⟩⟩, w) ∧
    HandleFlush B s w =
      (⟨500, ⟨false, "", "Error flushing cache: not connected to Memcached", []⟩⟩, w) ∧
    HandleListKeys B s w =
      (⟨500, ⟨false, "", "Error listing keys: not connected to Memcached", []⟩⟩, w) := by
  obtain ⟨h1, h2, h3, h4, h5, h6⟩ :=
    not_connected_of_no_client B s w req.Key req.Value req.Keys h
  refine ⟨?_, ?_, ?_, ?_, ?_, ?_⟩
  · simp only [HandleSet, h1]; rfl
  · simp only [HandleGet, h2]; rfl
  · simp only [HandleGetMultiple, h3]
  · simp only [HandleDelete, h4]; rfl
  · simp only [HandleFlush, h5]; rfl
  · simp only [HandleListKeys, h6]; rfl

/-- C18 at a concrete input: a set request on a new service. -/
theorem handlers_not_connected_witness :
    NewMemcachedService.client = none ∧
    HandleSet (kvBackend legalKey true) NewMemcachedService
        (some ⟨"test".toList, [], "value".toList⟩) emptyWorld =
      (⟨500, ⟨false, "", "Error saving: not connected to Memcached", []⟩⟩, emptyWorld) :=
  ⟨rfl, (handlers_not_connected (kvBackend legalKey true) NewMemcachedService
    ⟨"test".toList, [], "value".toList⟩ emptyWorld rfl).1⟩

/-- C19, the code at failing inputs: the handlers put their own text before
the validation message of the service.  A blank address is answered
"Unable to connect: URL is required", an address with a scheme
"Unable to connect: invalid URL format", and on a connected service an empty
key is answered "Error saving: key and value are required" by set,
"Item not found: key is required" by get and
"Error deleting: key is required" by delete.  Two paths of the same handlers
give the message alone: the empty address, rejected by the connect handler
itself, and the empty key list of getMultiple. -/
theorem validation_error_not_verbatim :
    (HandleConnect (kvBackend legalKey true) NewMemcachedService (some ⟨"  ".toList⟩)
      emptyWorld).1.body.Error = "Unable to connect: URL is required" ∧
    (HandleConnect (kvBackend legalKey true) NewMemcachedService
      (some ⟨"http://localhost:11211".toList⟩) emptyWorld).1.body.Error =
        "Unable to connect: invalid URL format" ∧
    (HandleSet (kvBackend legalKey true) connectedService
      (some ⟨"".toList, [], "v".toList⟩) emptyWorld).1.body.Error =
        "Error saving: key and value are required" ∧
    (HandleGet (kvBackend legalKey true) connectedService
      (some ⟨"".toList, [], "".toList⟩) emptyWorld).1.body.Error =
        "Item not found: key is required" ∧
    (HandleDelete (kvBackend legalKey true) connectedService
      (some ⟨"".toList, [], "".toList⟩) emptyWorld).1.body.Error =
        "Error deleting: key is required" ∧
    (HandleConnect (kvBackend legalKey true) NewMemcachedService (some ⟨"".toList⟩)
      emptyWorld).1.body.Error = "URL is required" ∧
    (HandleGetMultiple (kvBackend legalKey true) connectedService
      (some ⟨"".toList, [], "".toList⟩) emptyWorld).1.body.Error =
        "at least one key is required" := by
  decide

/-! ## Address resolution is idempotent -/

theorem dropWhile_append_stop (p : Char → Bool) (l : GoString) (c : Char) (hc : p c = false) :
    (l ++ [c]).dropWhile p = l.dropWhile p ++ [c] := by
  induction l with
  | nil => simp [List.dropWhile_cons, hc]
  | cons a l ih =>
    by_cases ha : p a = true
    · simp only [List.cons_append, List.dropWhile_cons_of_pos ha, ih]
    · simp only [List.cons_append, List.dropWhile_cons_of_neg ha]

theorem TrimSpace_ends (s : GoString) :
    (∀ c, (TrimSpace s).head? = some c → isSpace c = false) ∧
    (∀ c, (TrimSpace s).getLast? = some c → isSpace c = false) := by
  constructor
  · intro c hc
    cases hl : trimLeft s with
    | nil =>
      rw [TrimSpace, hl] at hc
      exact absurd hc (by simp [trimRight])
    | cons a rest =>
      have ha : isSpace a = false := head_dropWhile_stop isSpace s a (by
        rw [show List.dropWhile isSpace s = trimLeft s from rfl, hl]; rfl)
      rw [TrimSpace, hl, trimRight, List.reverse_cons, dropWhile_append_stop _ _ _ ha,
        List.reverse_append] at hc
      have e : a = c := by simpa using hc
      rw [← e]; exact ha
  · intro c hc
    rw [TrimSpace, trimRight, List.getLast?_reverse] at hc
    exact head_dropWhile_stop isSpace _ c hc

theorem infix_append_of_not_mem (c : Char) (r a b : GoString) (hc : c ∉ a)
    (h : (c :: r) <:+: a ++ b) : (c :: r) <:+: b := by
  induction a with
  | nil => simpa using h
  | cons x a ih =>
    have hx : c ≠ x := fun e => hc (by simp [e])
    have ha : c ∉ a := fun e => hc (List.mem_cons_of_mem _ e)
    rw [List.cons_append] at h
    rcases List.infix_cons_iff.mp h with hp | hi
    · obtain ⟨t, ht⟩ := hp
      rw [List.cons_append] at ht
      exact absurd (List.cons_eq_cons.mp ht).1 hx
    · exact ih ha hi

theorem alias_of_no_port (t : GoString) (hm : ':' ∉ t)
    (hp : "memcached:".toList <+: t ++ ":11211".toList) : t = "memcached".toList := by
  obtain ⟨r, hr⟩ := hp
  have e1 := takeWhile_before_colon t "11211".toList hm
  have e2 := takeWhile_before_colon "memcached".toList r (by decide)
  have e3 : t ++ ':' :: "11211".toList = "memcached".toList ++ ':' :: r := hr.symm
  rw [e3, e2] at e1
  exact e1.symm

theorem resolve_of_port (t : GoString) (hm : ':' ∈ t)
    (hp : HasPrefix t "memcached:".toList = false) : resolve t = t := by
  have hc : Contains t ":".toList = true := (Contains_colon_iff t).mpr hm
  simp only [resolve, hc, Bool.not_true, Bool.false_eq_true, if_false, hp]

theorem resolved_shape (t : GoString) (hne : t ≠ [])
    (hh : ∀ c, t.head? = some c → isSpace c = false)
    (hl : ∀ c, t.getLast? = some c → isSpace c = false)
    (hs : ¬ "://".toList <:+: t) :
    (resolve t ≠ []) ∧
    (∀ c, (resolve t).head? = some c → isSpace c = false) ∧
    (∀ c, (resolve t).getLast? = some c → isSpace c = false) ∧
    ':' ∈ resolve t ∧ ¬ "://".toList <:+: resolve t ∧
    HasPrefix (resolve t) "memcached:".toList = false := by
  by_cases hm : ':' ∈ t
  · by_cases hp : HasPrefix t "memcached:".toList = true
    · -- the alias with a port
      obtain ⟨p, rfl⟩ := List.isPrefixOf_iff_prefix.mp hp
      rw [resolve_alias]
      refine ⟨by simp [String.toList], ?_, ?_, ?_, ?_, ?_⟩
      · intro c hc
        have e : 'l' = c := by
          have : ("localhost:".toList ++ p).head? = some 'l' := rfl
          rw [this] at hc
          exact Option.some.inj hc
        rw [← e]; decide
      · intro c hc
        cases p with
        | nil =>
          have e : ':' = c := by
            have : ("localhost:".toList ++ ([] : GoString)).getLast? = some ':' := by decide
            rw [this] at hc
            exact Option.some.inj hc
          rw [← e]; decide
        | cons x p =>
          apply hl c
          rw [List.getLast?_append_of_ne_nil _ (List.cons_ne_nil x p)] at hc ⊢
          exact hc
      · exact List.mem_append_left _ (by decide)
      · intro hi
        have h1 : "://".toList <:+: ':' :: p :=
          infix_append_of_not_mem ':' "//".toList "localhost".toList (':' :: p) (by decide) hi
        exact hs (List.IsInfix.trans h1 ⟨"memcached".toList, [], by simp [String.toList]⟩)
      · rw [HasPrefix, Bool.eq_false_iff]
        intro h
        obtain ⟨r, hr⟩ := List.isPrefixOf_iff_prefix.mp h
        have e : ("memcached:".toList ++ r).head? = ("localhost:".toList ++ p).head? := by
          rw [hr]
        have e1 : ("memcached:".toList ++ r).head? = some 'm' := rfl
        have e2 : ("localhost:".toList ++ p).head? = some 'l' := rfl
        rw [e1, e2] at e
        exact absurd e (by decide)
    · -- an address with a port and without the alias
      have hp2 : HasPrefix t "memcached:".toList = false := by simpa using hp
      rw [resolve_of_port t hm hp2]
      exact ⟨hne, hh, hl, hm, hs, hp2⟩
  · have hc : Contains t ":".toList = false := by
      rw [Bool.eq_false_iff, Ne, Contains_colon_iff]; exact hm
    rw [resolve_no_port t hc]
    by_cases he : t = "memcached".toList
    · -- the alias without a port
      rw [if_pos he]
      exact ⟨by decide, by decide, by decide, by decide, by decide, by decide⟩
    · -- an address without a port
      rw [if_neg he]
      refine ⟨by simp [hne], ?_, ?_, ?_, ?_, ?_⟩
      · intro c hc
        rw [List.head?_append_of_ne_nil _ hne] at hc
        exact hh c hc
      · intro c hc
        rw [List.getLast?_append_of_ne_nil _ (by decide)] at hc
        have e : '1' = c := by
          have : ":11211".toList.getLast? = some '1' := by decide
          rw [this] at hc
          exact Option.some.inj hc
        rw [← e]; decide
      · exact List.mem_append_right _ (by decide)
      · intro hi
        have h1 := infix_append_of_not_mem ':' "//".toList t ":11211".toList hm hi
        exact absurd h1 (by decide)
      · rw [HasPrefix, Bool.eq_false_iff]
        intro h
        exact he (alias_of_no_port t hm (List.isPrefixOf_iff_prefix.mp h))

/-- C21: for every address that passes the address checks, the host `Connect`
records has no leading or trailing white space, contains a `:`, does not
contain "://" and does not begin with "memcached:"; it passes the address
checks itself, and a `Connect` to it, in any state, records the same host. -/
theorem Connect_resolution_idempotent (B : Backend σ) (s s2 : MemcachedService)
    (url : GoString) (w w2 : World σ) (hv : validAddress url) :
    validAddress (Connect B s url w).2.1.host ∧
    (Connect B s2 (Connect B s url w).2.1.host w2).2.1.host = (Connect B s url w).2.1.host ∧
    TrimSpace (Connect B s url w).2.1.host = (Connect B s url w).2.1.host ∧
    (∀ c, (Connect B s url w).2.1.host.head? = some c → isSpace c = false) ∧
    (∀ c, (Connect B s url w).2.1.host.getLast? = some c → isSpace c = false) ∧
    Contains (Connect B s url w).2.1.host ":".toList = true ∧
    Contains (Connect B s url w).2.1.host "://".toList = false ∧
    HasPrefix (Connect B s url w).2.1.host "memcached:".toList = false := by
  have e : (Connect B s url w).2.1.host = resolve (TrimSpace url) := by
    rw [Connect_of_valid B s url w hv.1 hv.2]
  obtain ⟨h1, h2, h3, h4, h5, h6⟩ := resolved_shape (TrimSpace url) hv.1
    (TrimSpace_ends url).1 (TrimSpace_ends url).2 ((Contains_false_iff _ _).mp hv.2)
  rw [e]
  have ht : TrimSpace (resolve (TrimSpace url)) = resolve (TrimSpace url) :=
    TrimSpace_eq_self _ h2 h3
  have hs : Contains (resolve (TrimSpace url)) "://".toList = false :=
    (Contains_false_iff _ _).mpr h5
  have hv2 : validAddress (resolve (TrimSpace url)) := by
    refine ⟨?_, ?_⟩
    · rw [ht]; exact h1
    · rw [ht]; exact hs
  refine ⟨hv2, ?_, ht, h2, h3, (Contains_colon_iff _).mpr h4, hs, h6⟩
  rw [Connect_of_valid B s2 _ w2 hv2.1 hv2.2, ht]
  exact resolve_of_port _ h4 h6

/-- C21 at a concrete input: the padded alias " memcached " is recorded as
"localhost:11211", and a `Connect` to "localhost:11211" records it again. -/
theorem Connect_resolution_idempotent_witness :
    validAddress " memcached ".toList ∧
    (Connect (kvBackend legalKey true) NewMemcachedService " memcached ".toList
      emptyWorld).2.1.host = "localhost:11211".toList ∧
    (Connect (kvBackend legalKey true) connectedService
      (Connect (kvBackend legalKey true) NewMemcachedService " memcached ".toList
        emptyWorld).2.1.host emptyWorld).2.1.host =
      (Connect (kvBackend legalKey true) NewMemcachedService " memcached ".toList
        emptyWorld).2.1.host :=
  ⟨by decide, by decide,
    (Connect_resolution_idempotent (kvBackend legalKey true) NewMemcachedService
      connectedService " memcached ".toList emptyWorld emptyWorld (by decide)).2.1⟩

end Memcached
